import Mathlib

/-!
The TPC-C warehouse partitioner (`pkg/workload/tpcc/partition.go`).

A shallow embedding of `makePartitioner`, `randActive`, the DDL emitter
(`configureZone`, `partitionObject`, `partitionIndex`, `replicateItem`) and the
schema orchestrator (`partitionWarehouse` .. `partitionHistory`,
`partitionTables`), followed by the properties that the design document states.

Modelling conventions:

* Go's `int` is a 64-bit word on the platforms CockroachDB runs on.
  `makePartitioner64` (with `makeBounds64`, `makeSizes64`, `makePartElems64`)
  is the function as it runs there: a value is an `Int` in `[-2^63, 2^63)`,
  and every product, sum, difference and quotient wraps around (`wrap64`); the
  quotient `/` of Go truncates toward zero and is `Int.tdiv`.  The properties
  of the partitioner on every input are stated of `makePartitioner64`.
* `makePartitioner` (with `makeBounds`, `makeSizes`, `makePartElems`) is the
  same text read over the mathematical integers, in which nothing wraps.  The
  two return the same partitioner whenever `parts * total < 2^63`
  (`makePartitioner64_closedForm`, `makePartitioner_closedForm`); it is used
  on small concrete inputs and for what follows a returned partitioner.
* A slice is a `List`; `make([]int, n)` and an index expression `xs[i]` can
  panic at run time, so both are modelled in `Except Failure`.  Memory is not
  bounded: `make` panics on a negative length only.
* A `map[int]int` is an association list with unique keys, in insertion
  order; only lookups and the key set are observable.
* The random source of `randActive` is a function answering `Intn n`.
* The database handle is an arbitrary function of the calls made so far; a
  function of the emitter takes the calls made before it and gives back its
  result with the calls made after it, so that the statements it executes, and
  their order, are what it appends.
* `fmt.Sprintf` is the concatenation of the pieces of its format and of its
  arguments (`%s` a string, `%d` the decimal digits of an integer, `%q` the
  quoted form of `strconv.Quote`); `errors.Wrapf` keeps the cause.
-/

namespace Tpcc

/-- The ways a call can fail: an error value returned by the function
(`errors.Errorf`) or a run-time panic of the Go runtime. -/
inductive Failure where
  | invalidArgument (msg : String)
  | runtimePanic (msg : String)
  deriving DecidableEq, Repr

/-- The `partitioner` struct. -/
structure partitioner where
  total : Int
  active : Int
  parts : Int
  partBounds : List Int
  partElems : List (List Int)
  partElemsMap : List (Int × Int)
  totalElems : List Int
  deriving DecidableEq, Repr

/-- The Go expression `make([]int, n)`: a zeroed slice of length `n`, a panic
for a negative length. -/
def makeSlice (n : Int) : Except Failure (List Int) :=
  if n < 0 then .error (.runtimePanic "makeslice: len out of range")
  else .ok (List.replicate n.toNat 0)

/-- The Go index expression `xs[i]`: a panic when `i` is out of range. -/
def index {α : Type} (xs : List α) (i : Nat) : Except Failure α :=
  match xs[i]? with
  | some x => .ok x
  | none => .error (.runtimePanic "index out of range")

/-- The Go statement `m[k] = v` on a map: overwrite the entry of `k` when
there is one, add it otherwise. -/
def mapSet : List (Int × Int) → Int → Int → List (Int × Int)
  | [], k, v => [(k, v)]
  | (k', v') :: m, k, v => if k' = k then (k, v) :: m else (k', v') :: mapSet m k v

/-- The Go lookup `m[k]` with its presence flag. -/
def mapGet : List (Int × Int) → Int → Option Int
  | [], _ => none
  | (k', v') :: m, k => if k' = k then some v' else mapGet m k

/-- The key set of a map. -/
def mapKeys (m : List (Int × Int)) : List Int := m.map Prod.fst

/-- Lines 71-74 over the mathematical integers (no product wraps; on 64-bit
words the loop is `makeBounds64`): `bounds := make([]int, parts+1)` and the loop
`bounds[i] = (i * total) / parts`. -/
def makeBounds (total parts : Int) : Except Failure (List Int) := do
  let bounds ← makeSlice (parts + 1)
  pure ((List.range bounds.length).map fun (i : Nat) => Int.tdiv ((i : Int) * total) parts)

/-- Lines 84-89 over the mathematical integers (on 64-bit words the loop is
`makeSizes64`): `sizes := make([]int, parts)` and the loop computing
`sizes[i] = ((i+1)*active)/parts - (i*active)/parts`. -/
def makeSizes (active parts : Int) : Except Failure (List Int) := do
  let sizes ← makeSlice parts
  pure ((List.range sizes.length).map fun (i : Nat) =>
    let s := Int.tdiv ((i : Int) * active) parts
    let e := Int.tdiv (((i : Int) + 1) * active) parts
    e - s)

/-- Lines 100-107 over the mathematical integers (on 64-bit words the loop is
`makePartElems64`): `partElems := make([][]int, parts)` and, for every partition
`i`, `partAct := make([]int, sizes[i])` filled with `partAct[j] = bounds[i] + j`. -/
def makePartElems (bounds sizes : List Int) (parts : Int) :
    Except Failure (List (List Int)) :=
  if parts < 0 then .error (.runtimePanic "makeslice: len out of range")
  else
    (List.range parts.toNat).mapM fun (i : Nat) => do
      let n ← index sizes i
      let partAct ← makeSlice n
      (List.range partAct.length).mapM fun (j : Nat) => do
        let b ← index bounds i
        pure (b + (j : Int))

/-- Lines 118-123: the loop `for p, elems := range partElems`, started at
partition index `p` with the map `m` built so far; the inner loop sets
`partElemsMap[elem] = p`. -/
def makePartElemsMapFrom : Nat → List (List Int) → List (Int × Int) → List (Int × Int)
  | _, [], m => m
  | p, elems :: rest, m =>
    makePartElemsMapFrom (p + 1) rest (elems.foldl (fun m elem => mapSet m elem (p : Int)) m)

/-- Lines 118-123: the reverse mapping, from the empty map. -/
def makePartElemsMap (partElems : List (List Int)) : List (Int × Int) :=
  makePartElemsMapFrom 0 partElems []

/-- Lines 134-137: `totalElems = append(totalElems, elems...)` for every
partition in order. -/
def makeTotalElems (partElems : List (List Int)) : List Int :=
  partElems.foldl (fun totalElems elems => totalElems ++ elems) []

/-- The function `makePartitioner` (lines 44-149) over the mathematical
integers: the partitioner that the code returns when none of its products
wraps, that is when `parts * total < 2^63`; the function on 64-bit words is
`makePartitioner64`. -/
def makePartitioner (total active parts : Int) : Except Failure partitioner :=
  if total ≤ 0 then
    .error (.invalidArgument s!"total must be positive; {total}")
  else if active ≤ 0 then
    .error (.invalidArgument s!"active must be positive; {active}")
  else if parts ≤ 0 then
    .error (.invalidArgument s!"parts must be positive; {parts}")
  else if active > total then
    .error (.invalidArgument s!"active > total; {active} > {total}")
  else if parts > total then
    .error (.invalidArgument s!"parts > total; {parts} > {total}")
  else do
    let bounds ← makeBounds total parts
    let sizes ← makeSizes active parts
    let partElems ← makePartElems bounds sizes parts
    let partElemsMap := makePartElemsMap partElems
    let totalElems := makeTotalElems partElems
    pure
      { total := total, active := active, parts := parts,
        partBounds := bounds, partElems := partElems,
        partElemsMap := partElemsMap, totalElems := totalElems }

/-- The method `randActive` (lines 151-154): `rng` answers `rng.Intn(n)`.
`Intn` panics for `n ≤ 0`, and the index expression panics out of range. -/
def randActive (p : partitioner) (rng : Int → Int) : Except Failure Int :=
  let n : Int := p.totalElems.length
  if n ≤ 0 then .error (.runtimePanic "invalid argument to Intn")
  else
    let k := rng n
    if k < 0 then .error (.runtimePanic "index out of range")
    else index p.totalElems k.toNat

/-- The inputs that pass the validation of `makePartitioner`. -/
def validInput (total active parts : Int) : Prop :=
  0 < active ∧ active ≤ total ∧ 0 < parts ∧ parts ≤ total

instance (total active parts : Int) : Decidable (validInput total active parts) := by
  unfold validInput; infer_instance

/-- The boundary point `floor (i * total / parts)`. -/
def boundAt (total parts : Int) (i : Nat) : Int := ((i : Int) * total) / parts

/-- The active count `floor ((i+1) * active / parts) - floor (i * active / parts)`. -/
def sizeAt (active parts : Int) (i : Nat) : Int :=
  (((i : Int) + 1) * active) / parts - ((i : Int) * active) / parts

/-- The ascending run of `sizeAt active parts i` elements from `boundAt total parts i`. -/
def runAt (total active parts : Int) (i : Nat) : List Int :=
  (List.range (sizeAt active parts i).toNat).map fun (j : Nat) => boundAt total parts i + (j : Int)

/-- The partitioner in closed form: what `makePartitioner` computes on a valid input. -/
def closedForm (total active parts : Int) : partitioner :=
  { total := total, active := active, parts := parts,
    partBounds := (List.range (parts.toNat + 1)).map (boundAt total parts),
    partElems := (List.range parts.toNat).map (runAt total active parts),
    partElemsMap := makePartElemsMap ((List.range parts.toNat).map (runAt total active parts)),
    totalElems := makeTotalElems ((List.range parts.toNat).map (runAt total active parts)) }

/-! ## The database handle and the DDL emitter -/

/-- A call on the database handle: `db.Exec(stmt)`, or
`db.QueryRow(sql, args...).Scan(&b)` for a boolean `b`. -/
inductive Call where
  | exec (stmt : String)
  | queryRow (sql : String) (args : List String)
  deriving DecidableEq, Repr

/-- The handle `*gosql.DB`, an external collaborator.  Its answer may depend on
the calls made before: `exec calls stmt` is the message of the error returned
by `db.Exec(stmt)` (`none` for a `nil` error), `scan calls sql args` is the
boolean scanned from the row of `db.QueryRow(sql, args...)`, or the message of
the error of `Scan`. -/
structure DB where
  exec : List Call → String → Option String
  scan : List Call → String → List String → Except String Bool

/-- A Go `error` value of this file: an error of the database driver, of which
only the message is observable, or `errors.Wrapf(cause, "Couldn't exec %q", sql)`. -/
inductive GoError where
  | driver (msg : String)
  | couldntExec (cause : GoError) (sql : String)
  deriving DecidableEq, Repr

/-- What a call of a function returning `error` leaves: the returned `error`
(`none` for `nil`) or a run-time panic, and the calls made on the handle so far. -/
abbrev Outcome := Except Failure (Option GoError) × List Call

/-- The digits of `n` in base 16, lower case, on `width` positions
(`%02x`, `%04x`, `%08x`). -/
def hexFixed (width n : Nat) : List Char :=
  (List.range width).reverse.map fun (k : Nat) => Nat.digitChar ((n / 16 ^ k) % 16)

/-- One rune of `strconv.Quote` (the verb `%q`).  Up to U+007F the printable
runes are U+0020..U+007E; above, Go reads the tables of its `unicode` package,
which `isPrint` stands for. -/
def quoteRune (isPrint : Char → Bool) (c : Char) : List Char :=
  if c = Char.ofNat 34 ∨ c = Char.ofNat 92 then [Char.ofNat 92, c]
  else if c.toNat < 128 then
    if 32 ≤ c.toNat ∧ c.toNat < 127 then [c]
    else if c.toNat = 7 then [Char.ofNat 92, 'a']
    else if c.toNat = 8 then [Char.ofNat 92, 'b']
    else if c.toNat = 12 then [Char.ofNat 92, 'f']
    else if c.toNat = 10 then [Char.ofNat 92, 'n']
    else if c.toNat = 13 then [Char.ofNat 92, 'r']
    else if c.toNat = 9 then [Char.ofNat 92, 't']
    else if c.toNat = 11 then [Char.ofNat 92, 'v']
    else Char.ofNat 92 :: 'x' :: hexFixed 2 c.toNat
  else if isPrint c then [c]
  else if c.toNat < 65536 then Char.ofNat 92 :: 'u' :: hexFixed 4 c.toNat
  else Char.ofNat 92 :: 'U' :: hexFixed 8 c.toNat

/-- The verb `%q` of `fmt` on a string: `strconv.Quote`. -/
def goQuote (isPrint : Char → Bool) (s : String) : String :=
  String.mk (Char.ofNat 34 :: (s.toList.flatMap (quoteRune isPrint) ++ [Char.ofNat 34]))

/-- The method `Error()`: the message of an error; for a wrapped error the
formatted message, `": "` and the message of the cause. -/
def GoError.Error (isPrint : Char → Bool) : GoError → String
  | .driver msg => msg
  | .couldntExec cause sql =>
    "Couldn't exec " ++ goQuote isPrint sql ++ ": " ++ GoError.Error isPrint cause

/-- Whether `sub` occurs in `s` as a contiguous run. -/
def containsChars (sub : List Char) : List Char → Bool
  | [] => sub.isEmpty
  | c :: s => sub.isPrefixOf (c :: s) || containsChars sub s

/-- The function `strings.Contains`. -/
def stringsContains (s sub : String) : Bool := containsChars sub.toList s.toList

/-- Lines 160-165 of `configureZone`: the constraint `[+zone=<zones[constraint]>]`
when zones are given (the index expression can panic), `[+rack=<constraint>]`
otherwise. -/
def zoneConstraints (constraint : Int) (zones : List String) : Except Failure String :=
  if zones.length > 0 then
    if constraint < 0 then .error (.runtimePanic "index out of range")
    else
      match index zones constraint.toNat with
      | .ok zone => .ok ("[+zone=" ++ zone ++ "]")
      | .error f => .error f
  else .ok ("[+rack=" ++ toString constraint ++ "]")

/-- The function `configureZone` (lines 159-183), from the calls `tr` made so far. -/
def configureZone (db : DB) (tr : List Call) (table partition : String) (constraint : Int)
    (zones : List String) : Outcome :=
  match zoneConstraints constraint zones with
  | .error f => (.error f, tr)
  | .ok constraints =>
    let sql := "ALTER PARTITION " ++ partition ++ " OF TABLE " ++ table ++
      " CONFIGURE ZONE USING constraints = '" ++ constraints ++ "'"
    let err := db.exec tr sql
    let tr := tr ++ [Call.exec sql]
    let retry : Bool :=
      match err with
      | some msg => stringsContains msg "syntax error"
      | none => false
    let sqlLegacy := "ALTER PARTITION " ++ partition ++ " OF TABLE " ++ table ++
      " EXPERIMENTAL CONFIGURE ZONE 'constraints: " ++ constraints ++ "'"
    let (sql, err, tr) :=
      if retry then (sqlLegacy, db.exec tr sqlLegacy, tr ++ [Call.exec sqlLegacy])
      else (sql, err, tr)
    match err with
    | some msg => (.ok (some (.couldntExec (.driver msg) sql)), tr)
    | none => (.ok none, tr)

/-- The first loop of `partitionObject` (lines 193-200), with `n` iterations
left at index `i` (`n = p.parts - i`): one clause per partition is appended to
the buffer. -/
def rangeClauses (p : partitioner) (idx : Int) : Nat → Nat → String → Except Failure String
  | 0, _, buf => .ok buf
  | n + 1, i, buf =>
    match index p.partBounds i, index p.partBounds (i + 1) with
    | .ok lo, .ok hi =>
      let buf := buf ++ ("  PARTITION p" ++ toString idx ++ "_" ++ toString i ++
        " VALUES FROM (" ++ toString lo ++ ") to (" ++ toString hi ++ ")")
      let buf := if (i : Int) + 1 < p.parts then buf ++ "," else buf
      rangeClauses p idx n (i + 1) (buf ++ "\n")
    | .error f, _ => .error f
    | _, .error f => .error f

/-- Lines 191-201 of `partitionObject`: the text of the `PARTITION BY RANGE`
statement. -/
def rangeStatement (p : partitioner) (obj name col : String) (idx : Int) :
    Except Failure String :=
  match rangeClauses p idx p.parts.toNat 0
      ("ALTER " ++ obj ++ " " ++ name ++ " PARTITION BY RANGE (" ++ col ++ ") (\n") with
  | .ok buf => .ok (buf ++ ")\n")
  | .error f => .error f

/-- The second loop of `partitionObject` (lines 206-210), with `n` iterations
left at index `i`: `configureZone` for partition `p<idx>_<i>`, returning at the
first error. -/
def configureZones (db : DB) (zones : List String) (table : String) (idx : Int) :
    Nat → Nat → List Call → Outcome
  | 0, _, tr => (.ok none, tr)
  | n + 1, i, tr =>
    match configureZone db tr table ("p" ++ toString idx ++ "_" ++ toString i) (i : Int) zones with
    | (.ok none, tr) => configureZones db zones table idx n (i + 1) tr
    | (.ok (some err), tr) => (.ok (some err), tr)
    | (.error f, tr) => (.error f, tr)

/-- The function `partitionObject` (lines 188-212). -/
def partitionObject (db : DB) (tr : List Call) (p : partitioner) (zones : List String)
    (obj name col table : String) (idx : Int) : Outcome :=
  match rangeStatement p obj name col idx with
  | .error f => (.error f, tr)
  | .ok stmt =>
    match db.exec tr stmt with
    | some msg => (.ok (some (.couldntExec (.driver msg) stmt)), tr ++ [Call.exec stmt])
    | none => configureZones db zones table idx p.parts.toNat 0 (tr ++ [Call.exec stmt])

/-- The function `partitionTable` (lines 214-218). -/
def partitionTable (db : DB) (tr : List Call) (p : partitioner) (zones : List String)
    (table col : String) (idx : Int) : Outcome :=
  partitionObject db tr p zones "TABLE" table col table idx

/-- The function `indexExists` (lines 355-366): the scanned boolean and the
error of the probe. -/
def indexExists (db : DB) (tr : List Call) (table index : String) :
    (Bool × Option GoError) × List Call :=
  let sql := "\n\t\tSELECT count(*) > 0\n\t\tFROM information_schema.statistics\n\t\tWHERE table_name = $1\n\t\tAND   index_name = $2\n\t"
  match db.scan tr sql [table, index] with
  | .error msg => ((false, some (.driver msg)), tr ++ [Call.queryRow sql [table, index]])
  | .ok found => ((found, none), tr ++ [Call.queryRow sql [table, index]])

/-- The function `partitionIndex` (lines 220-233). -/
def partitionIndex (db : DB) (tr : List Call) (p : partitioner) (zones : List String)
    (table index col : String) (idx : Int) : Outcome :=
  match indexExists db tr table index with
  | ((_, some err), tr) => (.ok (some err), tr)
  | ((false, none), tr) => (.ok none, tr)
  | ((true, none), tr) =>
    partitionObject db tr p zones "INDEX" (table ++ "@" ++ index) col table idx

/-- The function `partitionWarehouse` (lines 235-237). -/
def partitionWarehouse (db : DB) (tr : List Call) (wPart : partitioner) (zones : List String) :
    Outcome :=
  partitionTable db tr wPart zones "warehouse" "w_id" 0

/-- The loop of `replicateItem` (lines 289-308) from index `i` on. -/
def replicateItemFrom (db : DB) : Nat → List String → List Call → Outcome
  | _, [], tr => (.ok none, tr)
  | i, zone :: rest, tr =>
    let idxName := "replicated_idx_" ++ toString i
    let create := "\n\t\t\tCREATE UNIQUE INDEX " ++ idxName ++
      "\n\t\t\tON item (i_id)\n\t\t\tSTORING (i_im_id, i_name, i_price, i_data)"
    match db.exec tr create with
    | some msg => (.ok (some (.couldntExec (.driver msg) create)), tr ++ [Call.exec create])
    | none =>
      let configure := "\n\t\t\tALTER INDEX item@" ++ idxName ++
        "\n\t\t\tCONFIGURE ZONE USING lease_preferences = '[[+zone=" ++ zone ++ "]]'"
      match db.exec (tr ++ [Call.exec create]) configure with
      | some msg =>
        (.ok (some (.couldntExec (.driver msg) configure)),
          tr ++ [Call.exec create, Call.exec configure])
      | none => replicateItemFrom db (i + 1) rest (tr ++ [Call.exec create, Call.exec configure])

/-- The function `replicateItem` (lines 288-310). -/
def replicateItem (db : DB) (tr : List Call) (zones : List String) : Outcome :=
  replicateItemFrom db 0 zones tr

/-- The current-dialect zone statement, as the design document gives it:
`ALTER PARTITION <partName> OF TABLE <table> CONFIGURE ZONE USING constraints = '<constraints>'`. -/
def modernZoneStatement (partition table constraints : String) : String :=
  "ALTER PARTITION " ++ partition ++ " OF TABLE " ++ table ++
    " CONFIGURE ZONE USING constraints = '" ++ constraints ++ "'"

/-- The legacy zone statement, as the design document gives it:
`ALTER PARTITION <partName> OF TABLE <table> EXPERIMENTAL CONFIGURE ZONE 'constraints: <constraints>'`. -/
def legacyZoneStatement (partition table constraints : String) : String :=
  "ALTER PARTITION " ++ partition ++ " OF TABLE " ++ table ++
    " EXPERIMENTAL CONFIGURE ZONE 'constraints: " ++ constraints ++ "'"

/-- The calls of `configureZone` made one after the other for the given
partition names and constraint indices, up to the first one that does not
return `nil`. -/
def zoneCallsInOrder (db : DB) (zones : List String) (table : String) :
    List (String × Int) → List Call → Outcome
  | [], tr => (.ok none, tr)
  | (partition, constraint) :: rest, tr =>
    match configureZone db tr table partition constraint zones with
    | (.ok none, tr) => zoneCallsInOrder db zones table rest tr
    | (.ok (some err), tr) => (.ok (some err), tr)
    | (.error f, tr) => (.error f, tr)

/-- Clause `i` of the `PARTITION BY RANGE` statement, as the design document
gives it, with the `","` after every clause but the last and the newline. -/
def rangeClauseText (p : partitioner) (idx : Int) (i : Nat) : String :=
  "  PARTITION p" ++ toString idx ++ "_" ++ toString i ++ " VALUES FROM (" ++
    toString (p.partBounds.getD i 0) ++ ") to (" ++ toString (p.partBounds.getD (i + 1) 0) ++ ")" ++
    (if i + 1 < p.parts.toNat then "," else "") ++ "\n"

/-- The text of the catalog query of `indexExists` (lines 357-362). -/
def indexExistsQuery : String :=
  "\n\t\tSELECT count(*) > 0\n\t\tFROM information_schema.statistics\n\t\tWHERE table_name = $1\n\t\tAND   index_name = $2\n\t"

/-- An error `err` returned after the calls `tr'`, started from `tr`, reports
a failed statement: the last call is `db.Exec(stmt)`, it failed with the
message `msg`, and `err` is `errors.Wrapf(<that error>, "Couldn't exec %q", stmt)`. -/
def ReportsFailedExec (db : DB) (tr tr' : List Call) (err : GoError) : Prop :=
  ∃ (pre : List Call) (stmt msg : String),
    tr' = tr ++ pre ++ [Call.exec stmt] ∧ db.exec (tr ++ pre) stmt = some msg ∧
      err = .couldntExec (.driver msg) stmt

/-- An executor on which every statement and every probe succeeds, no index
being found. -/
def dbAlwaysOk : DB :=
  { exec := fun _ _ => none, scan := fun _ _ _ => .ok false }

/-- An executor on which every statement and every probe fails with `msg`. -/
def dbAlwaysFailing (msg : String) : DB :=
  { exec := fun _ _ => some msg, scan := fun _ _ _ => .error msg }

/-- An executor on which the statement of an even position (the first, the
third, ...) fails with `msg` and the others succeed; every probe finds the index. -/
def dbFailingFirst (msg : String) : DB :=
  { exec := fun tr _ => if tr.length % 2 = 0 then some msg else none,
    scan := fun _ _ _ => .ok true }

/-! ## The schema orchestrator -/

/-- The Go statement `if err := f(...); err != nil { return err }` followed by
the rest of the function: the rest runs from the calls left by `o` when `o`
returned `nil`; an error or a panic of `o` ends the function. -/
def andThen (o : Outcome) (rest : List Call → Outcome) : Outcome :=
  match o with
  | (.ok none, tr) => rest tr
  | (.ok (some err), tr) => (.ok (some err), tr)
  | (.error f, tr) => (.error f, tr)

/-- The Go raw string of the table name of `partitionOrder`: the word `order`
between two double quotes. -/
def orderTable : String :=
  String.singleton (Char.ofNat 34) ++ "order" ++ String.singleton (Char.ofNat 34)

/-- The function `partitionDistrict` (lines 239-241). -/
def partitionDistrict (db : DB) (tr : List Call) (wPart : partitioner) (zones : List String) :
    Outcome :=
  partitionTable db tr wPart zones "district" "d_w_id" 0

/-- The function `partitionNewOrder` (lines 243-245). -/
def partitionNewOrder (db : DB) (tr : List Call) (wPart : partitioner) (zones : List String) :
    Outcome :=
  partitionTable db tr wPart zones "new_order" "no_w_id" 0

/-- The function `partitionOrder` (lines 247-252). -/
def partitionOrder (db : DB) (tr : List Call) (wPart : partitioner) (zones : List String) :
    Outcome :=
  andThen (partitionTable db tr wPart zones orderTable "o_w_id" 0) fun tr =>
    partitionIndex db tr wPart zones orderTable "order_idx" "o_w_id" 1

/-- The function `partitionOrderLine` (lines 254-259). -/
def partitionOrderLine (db : DB) (tr : List Call) (wPart : partitioner) (zones : List String) :
    Outcome :=
  andThen (partitionTable db tr wPart zones "order_line" "ol_w_id" 0) fun tr =>
    partitionIndex db tr wPart zones "order_line" "order_line_stock_fk_idx" "ol_supply_w_id" 1

/-- The function `partitionStock` (lines 261-266). -/
def partitionStock (db : DB) (tr : List Call) (wPart : partitioner) (zones : List String) :
    Outcome :=
  partitionTable db tr wPart zones "stock" "s_w_id" 0

/-- The function `partitionCustomer` (lines 268-273). -/
def partitionCustomer (db : DB) (tr : List Call) (wPart : partitioner) (zones : List String) :
    Outcome :=
  andThen (partitionTable db tr wPart zones "customer" "c_w_id" 0) fun tr =>
    partitionIndex db tr wPart zones "customer" "customer_idx" "c_w_id" 1

/-- The function `partitionHistory` (lines 275-283). -/
def partitionHistory (db : DB) (tr : List Call) (wPart : partitioner) (zones : List String) :
    Outcome :=
  andThen (partitionTable db tr wPart zones "history" "h_w_id" 0) fun tr =>
    andThen (partitionIndex db tr wPart zones "history" "history_customer_fk_idx" "h_c_w_id" 1)
      fun tr =>
        partitionIndex db tr wPart zones "history" "history_district_fk_idx" "h_w_id" 2

/-- The function `partitionTables` (lines 312-338). -/
def partitionTables (db : DB) (tr : List Call) (wPart : partitioner) (zones : List String) :
    Outcome :=
  andThen (partitionWarehouse db tr wPart zones) fun tr =>
    andThen (partitionDistrict db tr wPart zones) fun tr =>
      andThen (partitionNewOrder db tr wPart zones) fun tr =>
        andThen (partitionOrder db tr wPart zones) fun tr =>
          andThen (partitionOrderLine db tr wPart zones) fun tr =>
            andThen (partitionStock db tr wPart zones) fun tr =>
              andThen (partitionCustomer db tr wPart zones) fun tr =>
                andThen (partitionHistory db tr wPart zones) fun tr =>
                  replicateItem db tr zones

/-- A partition target of the orchestrator: a table pass or an index pass, with
the partition key column and the disambiguator. -/
inductive Target where
  | table (table col : String) (idx : Int)
  | index (table index col : String) (idx : Int)
  deriving DecidableEq, Repr

/-- The table a target belongs to. -/
def Target.tableName : Target → String
  | .table t _ _ => t
  | .index t _ _ _ => t

/-- The disambiguator of a target. -/
def Target.disambiguator : Target → Int
  | .table _ _ idx => idx
  | .index _ _ _ idx => idx

/-- Whether a target is an index pass. -/
def Target.isIndex : Target → Bool
  | .table _ _ _ => false
  | .index _ _ _ _ => true

/-- One target processed: `partitionTable` or `partitionIndex`. -/
def Target.run (db : DB) (tr : List Call) (p : partitioner) (zones : List String) :
    Target → Outcome
  | .table t col idx => partitionTable db tr p zones t col idx
  | .index t i col idx => partitionIndex db tr p zones t i col idx

/-- The targets processed one after the other, up to the first that does not
return `nil`. -/
def runTargets (db : DB) (p : partitioner) (zones : List String) :
    List Target → List Call → Outcome
  | [], tr => (.ok none, tr)
  | target :: rest, tr => andThen (target.run db tr p zones) (runTargets db p zones rest)

/-- The catalog of the orchestrator as a table: the targets in the order in
which `partitionTables` processes them. -/
def catalog : List Target :=
  [.table "warehouse" "w_id" 0,
   .table "district" "d_w_id" 0,
   .table "new_order" "no_w_id" 0,
   .table orderTable "o_w_id" 0,
   .index orderTable "order_idx" "o_w_id" 1,
   .table "order_line" "ol_w_id" 0,
   .index "order_line" "order_line_stock_fk_idx" "ol_supply_w_id" 1,
   .table "stock" "s_w_id" 0,
   .table "customer" "c_w_id" 0,
   .index "customer" "customer_idx" "c_w_id" 1,
   .table "history" "h_w_id" 0,
   .index "history" "history_customer_fk_idx" "h_c_w_id" 1,
   .index "history" "history_district_fk_idx" "h_w_id" 2]

/-- The name of partition `i` under the disambiguator `idx`: `p<idx>_<i>`, as
`partitionObject` formats it. -/
def partitionName (idx : Int) (i : Nat) : String :=
  "p" ++ toString idx ++ "_" ++ toString i

/-- The table probed by a call of the existence probe (its first argument). -/
def probedTable : Call → Option String
  | .exec _ => none
  | .queryRow _ args => args.head?

/-- An executor on which every statement succeeds and every probe finds the
index. -/
def dbAllPresent : DB :=
  { exec := fun _ _ => none, scan := fun _ _ _ => .ok true }

/-- The error of a call on the handle made after the calls `hist`: the error of
`db.Exec`, or of the `Scan` of the probe; `none` when the call succeeds. -/
def callError (db : DB) (hist : List Call) : Call → Option GoError
  | .exec stmt => (db.exec hist stmt).map GoError.driver
  | .queryRow sql args =>
    match db.scan hist sql args with
    | .error msg => some (.driver msg)
    | .ok _ => none

/-- The value of a decimal digit character. -/
def charDigit (c : Char) : Nat := c.toNat - 48

/-- The number written by a list of decimal digits. -/
def digitsValue (l : List Char) : Nat :=
  l.foldl (fun acc c => acc * 10 + charDigit c) 0

/-- The characters of a string other than white space. -/
def withoutWhitespace (s : String) : List Char :=
  s.toList.filter fun c => !c.isWhitespace

/-- The text of the `PARTITION BY RANGE` statement as the design document gives
it: the header, one clause per partition, the closing line. -/
def rangeStatementText (p : partitioner) (obj name col : String) (idx : Int) : String :=
  "ALTER " ++ obj ++ " " ++ name ++ " PARTITION BY RANGE (" ++ col ++ ") (\n" ++
    String.join ((List.range p.parts.toNat).map (rangeClauseText p idx)) ++ ")\n"

/-- The current-dialect zone statements of one pass, one per partition in
order, on the table `table`, with the constraint `cs i` for partition `i`. -/
def zoneStatements (p : partitioner) (table : String) (idx : Int) (cs : Nat → String) :
    List Call :=
  (List.range p.parts.toNat).map fun (i : Nat) =>
    Call.exec (modernZoneStatement (partitionName idx i) table (cs i))

/-- The calls of one target when every statement succeeds and the index is
found: for an index the probe, then the range statement, then the zone
statements. -/
def targetCalls (p : partitioner) (cs : Nat → String) : Target → List Call
  | .table t col idx =>
    Call.exec (rangeStatementText p "TABLE" t col idx) :: zoneStatements p t idx cs
  | .index t i col idx =>
    Call.queryRow indexExistsQuery [t, i] ::
      Call.exec (rangeStatementText p "INDEX" (t ++ "@" ++ i) col idx) ::
        zoneStatements p t idx cs

/-- The statements of the replication step when every statement succeeds: for
every zone in order the creation of the index `replicated_idx_<i>` and its
zone configuration. -/
def replicationCalls (zones : List String) : List Call :=
  (List.zip (List.range zones.length) zones).flatMap fun (iz : Nat × String) =>
    [Call.exec ("\n\t\t\tCREATE UNIQUE INDEX " ++ ("replicated_idx_" ++ toString iz.1) ++
        "\n\t\t\tON item (i_id)\n\t\t\tSTORING (i_im_id, i_name, i_price, i_data)"),
      Call.exec ("\n\t\t\tALTER INDEX item@" ++ ("replicated_idx_" ++ toString iz.1) ++
        "\n\t\t\tCONFIGURE ZONE USING lease_preferences = '[[+zone=" ++ iz.2 ++ "]]'")]

/-- Every call of `new` (made after the calls `tr`) that is followed by another
call either succeeded or is a current-dialect zone statement that failed with a
syntax error and is followed at once by its legacy form: nothing is executed
after a failure that is not recovered. -/
def FailuresRecovered (db : DB) (tr new : List Call) : Prop :=
  ∀ (pre : List Call) (call : Call) (post : List Call), new = pre ++ call :: post → post ≠ [] →
    callError db (tr ++ pre) call = none ∨
    ∃ (partition table c msg : String),
      call = Call.exec (modernZoneStatement partition table c) ∧
      db.exec (tr ++ pre) (modernZoneStatement partition table c) = some msg ∧
      stringsContains msg "syntax error" = true ∧
      ∃ post', post = Call.exec (legacyZoneStatement partition table c) :: post'

/-- The outcome `o` of a function started after the calls `tr` stops at the
first failure that is not recovered: the calls it made are `new`, failures
before the last call are recovered, a returned error is the error of the last
call (as it is, or wrapped by `errors.Wrapf` with the statement), and a failure
of the last call is returned as an error. -/
def AbortsAtFirstFailure (db : DB) (tr : List Call) (o : Outcome) : Prop :=
  ∃ new, o.2 = tr ++ new ∧ FailuresRecovered db tr new ∧
    (∀ err, o.1 = .ok (some err) →
      ∃ (pre : List Call) (call : Call) (e : GoError),
        new = pre ++ [call] ∧ callError db (tr ++ pre) call = some e ∧
        (err = e ∨ ∃ stmt, call = Call.exec stmt ∧ err = .couldntExec e stmt)) ∧
    (∀ (pre : List Call) (call : Call), new = pre ++ [call] →
      callError db (tr ++ pre) call ≠ none → ∃ err, o.1 = .ok (some err))

/-! ## The arithmetic of a 64-bit word -/

/-- The value of a mathematical integer stored in Go's `int` on a 64-bit
platform: the representative of `x` modulo `2^64` in `[-2^63, 2^63)`. -/
def wrap64 (x : Int) : Int := (x + 2 ^ 63) % 2 ^ 64 - 2 ^ 63

/-- The Go product `a * b` on `int`: it wraps around. -/
def mul64 (a b : Int) : Int := wrap64 (a * b)

/-- The Go sum `a + b` on `int`. -/
def add64 (a b : Int) : Int := wrap64 (a + b)

/-- The Go difference `a - b` on `int`. -/
def sub64 (a b : Int) : Int := wrap64 (a - b)

/-- The Go quotient `a / b` on `int` for a divisor that is not zero: truncated
toward zero (the one quotient out of range, `-2^63 / -1`, wraps). -/
def div64 (a b : Int) : Int := wrap64 (Int.tdiv a b)

/-- Lines 71-74 on 64-bit words: `bounds[i] = (i * total) / parts`. -/
def makeBounds64 (total parts : Int) : Except Failure (List Int) := do
  let bounds ← makeSlice (add64 parts 1)
  pure ((List.range bounds.length).map fun (i : Nat) => div64 (mul64 (i : Int) total) parts)

/-- Lines 84-89 on 64-bit words: `s := (i * active) / parts`,
`e := ((i + 1) * active) / parts`, `sizes[i] = e - s`. -/
def makeSizes64 (active parts : Int) : Except Failure (List Int) := do
  let sizes ← makeSlice parts
  pure ((List.range sizes.length).map fun (i : Nat) =>
    let s := div64 (mul64 (i : Int) active) parts
    let e := div64 (mul64 (add64 (i : Int) 1) active) parts
    sub64 e s)

/-- Lines 100-107 on 64-bit words: `partAct[j] = bounds[i] + j`. -/
def makePartElems64 (bounds sizes : List Int) (parts : Int) :
    Except Failure (List (List Int)) :=
  if parts < 0 then .error (.runtimePanic "makeslice: len out of range")
  else
    (List.range parts.toNat).mapM fun (i : Nat) => do
      let n ← index sizes i
      let partAct ← makeSlice n
      (List.range partAct.length).mapM fun (j : Nat) => do
        let b ← index bounds i
        pure (add64 b (j : Int))

/-- The function `makePartitioner` (lines 44-149) as it runs on 64-bit words:
every product, sum, difference and quotient of the function wraps around, and
`make` panics on a negative length. -/
def makePartitioner64 (total active parts : Int) : Except Failure partitioner :=
  if total ≤ 0 then
    .error (.invalidArgument s!"total must be positive; {total}")
  else if active ≤ 0 then
    .error (.invalidArgument s!"active must be positive; {active}")
  else if parts ≤ 0 then
    .error (.invalidArgument s!"parts must be positive; {parts}")
  else if active > total then
    .error (.invalidArgument s!"active > total; {active} > {total}")
  else if parts > total then
    .error (.invalidArgument s!"parts > total; {parts} > {total}")
  else do
    let bounds ← makeBounds64 total parts
    let sizes ← makeSizes64 active parts
    let partElems ← makePartElems64 bounds sizes parts
    let partElemsMap := makePartElemsMap partElems
    let totalElems := makeTotalElems partElems
    pure
      { total := total, active := active, parts := parts,
        partBounds := bounds, partElems := partElems,
        partElemsMap := partElemsMap, totalElems := totalElems }

theorem mapM_ok {α β : Type} (f : α → Except Failure β) (g : α → β) (l : List α)
    (h : ∀ x ∈ l, f x = .ok (g x)) : l.mapM f = .ok (l.map g) := by
  induction l with
  | nil => rfl
  | cons x xs ih =>
    rw [List.mapM_cons, h x (List.mem_cons_self _ _),
      ih (fun y hy => h y (List.mem_cons_of_mem _ hy))]
    rfl

theorem makeSlice_ok (n : Int) (h : 0 ≤ n) : makeSlice n = .ok (List.replicate n.toNat 0) := by
  unfold makeSlice
  rw [if_neg (by omega)]

theorem index_ok {α : Type} (xs : List α) (i : Nat) (h : i < xs.length) :
    index xs i = .ok (xs.get ⟨i, h⟩) := by
  unfold index
  rw [List.getElem?_eq_getElem h]
  rfl

theorem tdiv_mul_eq (total parts : Int) (i : Nat) (ht : 0 ≤ total) (hp : 0 ≤ parts) :
    Int.tdiv ((i : Int) * total) parts = boundAt total parts i := by
  unfold boundAt
  exact Int.tdiv_eq_ediv (Int.mul_nonneg (Int.ofNat_nonneg i) ht) hp

theorem makeBounds_ok (total parts : Int) (ht : 0 ≤ total) (hp : 0 ≤ parts) :
    makeBounds total parts = .ok ((List.range (parts.toNat + 1)).map (boundAt total parts)) := by
  unfold makeBounds
  rw [makeSlice_ok _ (by omega)]
  have hlen : (parts + 1).toNat = parts.toNat + 1 := by omega
  simp only [Except.bind, bind, pure, Except.pure, List.length_replicate, hlen]
  congr 1
  apply List.map_congr_left
  intro i _
  exact tdiv_mul_eq total parts i ht hp

theorem makeSizes_ok (active parts : Int) (ha : 0 ≤ active) (hp : 0 ≤ parts) :
    makeSizes active parts = .ok ((List.range parts.toNat).map (sizeAt active parts)) := by
  unfold makeSizes
  rw [makeSlice_ok _ hp]
  simp only [Except.bind, bind, pure, Except.pure, List.length_replicate]
  congr 1
  apply List.map_congr_left
  intro i _
  unfold sizeAt
  have h1 := tdiv_mul_eq active parts i ha hp
  have h2 := tdiv_mul_eq active parts (i + 1) ha hp
  unfold boundAt at h1 h2
  push_cast at h2
  rw [h1, h2]

theorem sizeAt_nonneg (active parts : Int) (i : Nat) (ha : 0 ≤ active) (hp : 0 < parts) :
    0 ≤ sizeAt active parts i := by
  unfold sizeAt
  have : (i : Int) * active ≤ ((i : Int) + 1) * active := by nlinarith
  have := Int.ediv_le_ediv hp this
  omega

theorem makePartElems_ok (total active parts : Int) (ha : 0 ≤ active) (hp : 0 < parts) :
    makePartElems ((List.range (parts.toNat + 1)).map (boundAt total parts))
        ((List.range parts.toNat).map (sizeAt active parts)) parts
      = .ok ((List.range parts.toNat).map (runAt total active parts)) := by
  unfold makePartElems
  rw [if_neg (by omega)]
  apply mapM_ok
  intro i hi
  have hi' : i < parts.toNat := List.mem_range.mp hi
  rw [index_ok _ i (by simpa using hi')]
  simp only [Except.bind, bind, List.get_eq_getElem, List.getElem_map, List.getElem_range]
  rw [makeSlice_ok _ (sizeAt_nonneg active parts i ha hp)]
  simp only [List.length_replicate]
  unfold runAt
  apply mapM_ok
  intro j _
  rw [index_ok _ i (by simp; omega)]
  simp only [Except.bind, bind, pure, Except.pure, List.get_eq_getElem, List.getElem_map,
    List.getElem_range]

theorem makePartitioner_closedForm (total active parts : Int)
    (h : validInput total active parts) :
    makePartitioner total active parts = .ok (closedForm total active parts) := by
  obtain ⟨h1, h2, h3, h4⟩ := h
  unfold makePartitioner
  rw [if_neg (by omega), if_neg (by omega), if_neg (by omega), if_neg (by omega),
    if_neg (by omega)]
  rw [makeBounds_ok total parts (by omega) (by omega), makeSizes_ok active parts (by omega) (by omega)]
  simp only [Except.bind, bind]
  rw [makePartElems_ok total active parts (by omega) h3]
  rfl

/-! ## Arithmetic of the scaled division -/

theorem boundAt_zero (total parts : Int) : boundAt total parts 0 = 0 := by
  simp [boundAt]

theorem boundAt_parts (total parts : Int) (hp : 0 < parts) :
    boundAt total parts parts.toNat = total := by
  unfold boundAt
  rw [Int.toNat_of_nonneg (le_of_lt hp)]
  exact Int.mul_ediv_cancel_left total (ne_of_gt hp)

theorem boundAt_mono (total parts : Int) (ht : 0 ≤ total) (hp : 0 < parts) {i j : Nat}
    (hij : i ≤ j) : boundAt total parts i ≤ boundAt total parts j := by
  unfold boundAt
  apply Int.ediv_le_ediv hp
  have : (i : Int) ≤ (j : Int) := by exact_mod_cast hij
  nlinarith

theorem sizeAt_eq (active parts : Int) (i : Nat) :
    sizeAt active parts i = boundAt active parts (i + 1) - boundAt active parts i := by
  unfold sizeAt boundAt
  push_cast
  rfl

theorem sizeAt_bounds (active parts : Int) (i : Nat) (hp : 0 < parts) :
    active / parts ≤ sizeAt active parts i ∧ sizeAt active parts i ≤ active / parts + 1 := by
  unfold sizeAt
  have e : ((i : Int) + 1) * active = (i : Int) * active + active := by ring
  rw [e]
  generalize (i : Int) * active = x
  have h1 := Int.ediv_add_emod x parts
  have h2 := Int.ediv_add_emod (x + active) parts
  have h3 := Int.ediv_add_emod active parts
  have m1 := Int.emod_nonneg x (ne_of_gt hp)
  have m2 := Int.emod_nonneg (x + active) (ne_of_gt hp)
  have m3 := Int.emod_nonneg active (ne_of_gt hp)
  have l1 := Int.emod_lt_of_pos x hp
  have l2 := Int.emod_lt_of_pos (x + active) hp
  have l3 := Int.emod_lt_of_pos active hp
  generalize x / parts = d1 at *
  generalize (x + active) / parts = d2 at *
  generalize active / parts = q at *
  generalize x % parts = r1 at *
  generalize (x + active) % parts = r2 at *
  generalize active % parts = r3 at *
  have key : parts * (d2 - d1 - q) = r1 + r3 - r2 := by linarith
  constructor
  · by_contra hc
    have : d2 - d1 - q ≤ -1 := by omega
    nlinarith
  · by_contra hc
    have : 2 ≤ d2 - d1 - q := by omega
    nlinarith

/-! ## The flattened slice and the reverse map -/

theorem makePartitioner_invalid (total active parts : Int)
    (h : total ≤ 0 ∨ active ≤ 0 ∨ parts ≤ 0 ∨ active > total ∨ parts > total) :
    ∃ msg, makePartitioner total active parts = .error (.invalidArgument msg) := by
  unfold makePartitioner
  split_ifs with h1 h2 h3 h4 h5
  · exact ⟨_, rfl⟩
  · exact ⟨_, rfl⟩
  · exact ⟨_, rfl⟩
  · exact ⟨_, rfl⟩
  · exact ⟨_, rfl⟩
  · omega

/-- C1: on the valid input `(8, 7, 5)` the bounds are `[0,1,3,4,6,8]` and the
active elements of partition 2 are `[3, 4]`: the element `4` is not below
`bounds[3] = 4`, so it is outside the half-open range `[bounds[2], bounds[3])`. -/
theorem partElems_spill_at_8_7_5 :
    validInput 8 7 5 ∧
    ∃ p, makePartitioner 8 7 5 = .ok p ∧
      p.partBounds = [0, 1, 3, 4, 6, 8] ∧
      p.partElems = [[0], [1], [3, 4], [4], [6, 7]] ∧
      (4 : Int) ∈ p.partElems.getD 2 [] ∧ ¬ ((4 : Int) < p.partBounds.getD 3 0) :=
  ⟨by decide, _, rfl, rfl, rfl, by decide, by decide⟩

/-- C2: on the valid input `(8, 7, 5)` the element `4` appears in
`partElems[2]` and in `partElems[3]` (the active sets are not disjoint), and
the reverse map sends `4` to partition 3 although it appears in partition 2. -/
theorem partElemsMap_owner_at_8_7_5 :
    validInput 8 7 5 ∧
    ∃ p, makePartitioner 8 7 5 = .ok p ∧
      (4 : Int) ∈ p.partElems.getD 2 [] ∧ (4 : Int) ∈ p.partElems.getD 3 [] ∧
      mapGet p.partElemsMap 4 = some 3 ∧ mapGet p.partElemsMap 4 ≠ some 2 :=
  ⟨by decide, _, rfl, by decide, by decide, by decide, by decide⟩

/-- C8: on the valid input `(8, 7, 5)` the flattened slice is
`[0,1,3,4,4,6,7]`: `randActive` returns the active element `4` for the two
indices `3` and `4` of the source, twice as often as any other element. -/
theorem randActive_duplicate_at_8_7_5 :
    validInput 8 7 5 ∧
    ∃ p, makePartitioner 8 7 5 = .ok p ∧
      p.totalElems = [0, 1, 3, 4, 4, 6, 7] ∧
      randActive p (fun _ => 3) = .ok 4 ∧ randActive p (fun _ => 4) = .ok 4 :=
  ⟨by decide, _, rfl, rfl, rfl, rfl⟩

/-! ## The partitioner returned on a valid input -/

/-- C10: `makePartitioner 20 10 3` succeeds with bounds `[0,6,13,20]`, sizes
`[3,3,4]`, active sets `[[0,1,2],[6,7,8],[13,14,15,16]]`, the reverse map
`{0:0,1:0,2:0,6:1,7:1,8:1,13:2,14:2,15:2,16:2}` and the flattened slice
`[0,1,2,6,7,8,13,14,15,16]`. -/
theorem makePartitioner_20_10_3 :
    makePartitioner 20 10 3 = .ok
      { total := 20, active := 10, parts := 3,
        partBounds := [0, 6, 13, 20],
        partElems := [[0, 1, 2], [6, 7, 8], [13, 14, 15, 16]],
        partElemsMap := [(0, 0), (1, 0), (2, 0), (6, 1), (7, 1), (8, 1),
          (13, 2), (14, 2), (15, 2), (16, 2)],
        totalElems := [0, 1, 2, 6, 7, 8, 13, 14, 15, 16] } ∧
    makeSizes 10 3 = .ok [3, 3, 4] ∧
    (∀ p, makePartitioner 20 10 3 = .ok p →
      p.partElems.map List.length = [3, 3, 4] ∧
      mapKeys p.partElemsMap = [0, 1, 2, 6, 7, 8, 13, 14, 15, 16] ∧
      (mapKeys p.partElemsMap).map (mapGet p.partElemsMap) =
        [some 0, some 0, some 0, some 1, some 1, some 1, some 2, some 2, some 2, some 2]) := by
  have h0 : makePartitioner 20 10 3 = .ok
      { total := 20, active := 10, parts := 3,
        partBounds := [0, 6, 13, 20],
        partElems := [[0, 1, 2], [6, 7, 8], [13, 14, 15, 16]],
        partElemsMap := [(0, 0), (1, 0), (2, 0), (6, 1), (7, 1), (8, 1),
          (13, 2), (14, 2), (15, 2), (16, 2)],
        totalElems := [0, 1, 2, 6, 7, 8, 13, 14, 15, 16] } := by rfl
  have h1 : makeSizes 10 3 = .ok [3, 3, 4] := by rfl
  refine ⟨h0, h1, ?_⟩
  intro p hp
  rw [h0] at hp
  cases hp
  exact ⟨by rfl, by rfl, by rfl⟩

/-! ## The zone configurator -/

theorem configureZone_panic (db : DB) (tr : List Call) (table partition : String)
    (constraint : Int) (zones : List String) (f : Failure)
    (hc : zoneConstraints constraint zones = .error f) :
    configureZone db tr table partition constraint zones = (.error f, tr) := by
  unfold configureZone
  rw [hc]

theorem configureZone_modern_ok (db : DB) (tr : List Call) (table partition : String)
    (constraint : Int) (zones : List String) (c : String)
    (hc : zoneConstraints constraint zones = .ok c)
    (h1 : db.exec tr (modernZoneStatement partition table c) = none) :
    configureZone db tr table partition constraint zones =
      (.ok none, tr ++ [Call.exec (modernZoneStatement partition table c)]) := by
  unfold configureZone
  unfold modernZoneStatement at h1
  rw [hc]
  simp only [h1, modernZoneStatement]
  rfl

theorem configureZone_modern_fail (db : DB) (tr : List Call) (table partition : String)
    (constraint : Int) (zones : List String) (c msg : String)
    (hc : zoneConstraints constraint zones = .ok c)
    (h1 : db.exec tr (modernZoneStatement partition table c) = some msg)
    (h2 : stringsContains msg "syntax error" = false) :
    configureZone db tr table partition constraint zones =
      (.ok (some (.couldntExec (.driver msg) (modernZoneStatement partition table c))),
        tr ++ [Call.exec (modernZoneStatement partition table c)]) := by
  unfold configureZone
  unfold modernZoneStatement at h1
  rw [hc]
  simp only [h1, h2, modernZoneStatement]
  rfl

theorem configureZone_fallback (db : DB) (tr : List Call) (table partition : String)
    (constraint : Int) (zones : List String) (c msg : String)
    (hc : zoneConstraints constraint zones = .ok c)
    (h1 : db.exec tr (modernZoneStatement partition table c) = some msg)
    (h2 : stringsContains msg "syntax error" = true) :
    configureZone db tr table partition constraint zones =
      ((match db.exec (tr ++ [Call.exec (modernZoneStatement partition table c)])
          (legacyZoneStatement partition table c) with
        | none => .ok none
        | some msg2 => .ok (some (.couldntExec (.driver msg2)
            (legacyZoneStatement partition table c)))),
        tr ++ [Call.exec (modernZoneStatement partition table c),
          Call.exec (legacyZoneStatement partition table c)]) := by
  unfold configureZone
  unfold modernZoneStatement at h1
  rw [hc]
  simp only [h1, h2, modernZoneStatement, legacyZoneStatement]
  cases db.exec (tr ++ [Call.exec ("ALTER PARTITION " ++ partition ++ " OF TABLE " ++ table ++
      " CONFIGURE ZONE USING constraints = '" ++ c ++ "'")])
    ("ALTER PARTITION " ++ partition ++ " OF TABLE " ++ table ++
      " EXPERIMENTAL CONFIGURE ZONE 'constraints: " ++ c ++ "'") <;> simp

theorem containsChars_iff (sub s : List Char) : containsChars sub s = true ↔ sub <:+: s := by
  induction s with
  | nil =>
    simp only [containsChars, List.isEmpty_iff, List.infix_nil]
  | cons c s ih =>
    simp only [containsChars, Bool.or_eq_true, ih, List.isPrefixOf_iff_prefix, List.infix_cons_iff]

theorem stringsContains_iff (s sub : String) :
    stringsContains s sub = true ↔ sub.toList <:+: s.toList :=
  containsChars_iff sub.toList s.toList

theorem zoneConstraints_rack (constraint : Int) :
    zoneConstraints constraint [] = .ok ("[+rack=" ++ toString constraint ++ "]") := by
  simp [zoneConstraints]

theorem zoneConstraints_zone (zones : List String) (k : Nat) (hk : k < zones.length) :
    zoneConstraints (k : Int) zones = .ok ("[+zone=" ++ zones.get ⟨k, hk⟩ ++ "]") := by
  unfold zoneConstraints
  rw [if_pos (by omega), if_neg (by omega), Int.toNat_ofNat, index_ok zones k hk]

theorem configureZone_cases (db : DB) (tr : List Call) (table partition : String)
    (constraint : Int) (zones : List String) :
    (∃ f, zoneConstraints constraint zones = .error f ∧
      configureZone db tr table partition constraint zones = (.error f, tr)) ∨
    (∃ c, zoneConstraints constraint zones = .ok c ∧
      ((db.exec tr (modernZoneStatement partition table c) = none ∧
        configureZone db tr table partition constraint zones =
          (.ok none, tr ++ [Call.exec (modernZoneStatement partition table c)])) ∨
      (∃ msg, db.exec tr (modernZoneStatement partition table c) = some msg ∧
        stringsContains msg "syntax error" = false ∧
        configureZone db tr table partition constraint zones =
          (.ok (some (.couldntExec (.driver msg) (modernZoneStatement partition table c))),
            tr ++ [Call.exec (modernZoneStatement partition table c)])) ∨
      (∃ msg, db.exec tr (modernZoneStatement partition table c) = some msg ∧
        stringsContains msg "syntax error" = true ∧
        db.exec (tr ++ [Call.exec (modernZoneStatement partition table c)])
          (legacyZoneStatement partition table c) = none ∧
        configureZone db tr table partition constraint zones =
          (.ok none, tr ++ [Call.exec (modernZoneStatement partition table c),
            Call.exec (legacyZoneStatement partition table c)])) ∨
      (∃ msg msg2, db.exec tr (modernZoneStatement partition table c) = some msg ∧
        stringsContains msg "syntax error" = true ∧
        db.exec (tr ++ [Call.exec (modernZoneStatement partition table c)])
          (legacyZoneStatement partition table c) = some msg2 ∧
        configureZone db tr table partition constraint zones =
          (.ok (some (.couldntExec (.driver msg2) (legacyZoneStatement partition table c))),
            tr ++ [Call.exec (modernZoneStatement partition table c),
              Call.exec (legacyZoneStatement partition table c)])))) := by
  cases hc : zoneConstraints constraint zones with
  | error f => exact Or.inl ⟨f, rfl, configureZone_panic db tr table partition constraint zones f hc⟩
  | ok c =>
    refine Or.inr ⟨c, rfl, ?_⟩
    cases h1 : db.exec tr (modernZoneStatement partition table c) with
    | none =>
      exact Or.inl ⟨rfl, configureZone_modern_ok db tr table partition constraint zones c hc h1⟩
    | some msg =>
      cases h2 : stringsContains msg "syntax error" with
      | false =>
        exact Or.inr (Or.inl ⟨msg, rfl, h2,
          configureZone_modern_fail db tr table partition constraint zones c msg hc h1 h2⟩)
      | true =>
        have h := configureZone_fallback db tr table partition constraint zones c msg hc h1 h2
        cases h3 : db.exec (tr ++ [Call.exec (modernZoneStatement partition table c)])
            (legacyZoneStatement partition table c) with
        | none =>
          rw [h3] at h
          exact Or.inr (Or.inr (Or.inl ⟨msg, rfl, h2, rfl, h⟩))
        | some msg2 =>
          rw [h3] at h
          exact Or.inr (Or.inr (Or.inr ⟨msg, msg2, rfl, h2, rfl, h⟩))

/-- C13: the fallback of `configureZone`.  When the modern statement fails with
a message containing `"syntax error"`, exactly one further statement is
executed, the legacy form for the same partition, table and constraint; when
it fails with another message, nothing more is executed and that failure is
returned (wrapped, as the cause); when it succeeds, nothing more is executed. -/
theorem configureZone_fallback_rule (db : DB) (tr : List Call) (table partition : String)
    (constraint : Int) (zones : List String) (constraints : String)
    (hc : zoneConstraints constraint zones = .ok constraints) :
    legacyZoneStatement partition table constraints =
        "ALTER PARTITION " ++ partition ++ " OF TABLE " ++ table ++
          " EXPERIMENTAL CONFIGURE ZONE 'constraints: " ++ constraints ++ "'" ∧
    (∀ msg, db.exec tr (modernZoneStatement partition table constraints) = some msg →
      stringsContains msg "syntax error" = true →
      (configureZone db tr table partition constraint zones).2 =
        tr ++ [Call.exec (modernZoneStatement partition table constraints),
          Call.exec (legacyZoneStatement partition table constraints)]) ∧
    (∀ msg, db.exec tr (modernZoneStatement partition table constraints) = some msg →
      stringsContains msg "syntax error" = false →
      configureZone db tr table partition constraint zones =
        (.ok (some (.couldntExec (.driver msg)
            (modernZoneStatement partition table constraints))),
          tr ++ [Call.exec (modernZoneStatement partition table constraints)])) ∧
    (db.exec tr (modernZoneStatement partition table constraints) = none →
      configureZone db tr table partition constraint zones =
        (.ok none, tr ++ [Call.exec (modernZoneStatement partition table constraints)])) := by
  refine ⟨rfl, ?_, ?_, ?_⟩
  · intro msg h1 h2
    rw [configureZone_fallback db tr table partition constraint zones constraints msg hc h1 h2]
  · intro msg h1 h2
    exact configureZone_modern_fail db tr table partition constraint zones constraints msg hc h1 h2
  · intro h1
    exact configureZone_modern_ok db tr table partition constraint zones constraints hc h1

theorem configureZone_fallback_rule_witness :
    zoneConstraints 0 [] = .ok "[+rack=0]" ∧
    (configureZone (dbFailingFirst "pq: syntax error at or near CONFIGURE") []
        "warehouse" "p0_0" 0 []).2 =
      [Call.exec "ALTER PARTITION p0_0 OF TABLE warehouse CONFIGURE ZONE USING constraints = '[+rack=0]'",
        Call.exec "ALTER PARTITION p0_0 OF TABLE warehouse EXPERIMENTAL CONFIGURE ZONE 'constraints: [+rack=0]'"] ∧
    configureZone (dbAlwaysFailing "connection refused") [] "warehouse" "p0_0" 0 [] =
      (.ok (some (.couldntExec (.driver "connection refused")
          "ALTER PARTITION p0_0 OF TABLE warehouse CONFIGURE ZONE USING constraints = '[+rack=0]'")),
        [Call.exec "ALTER PARTITION p0_0 OF TABLE warehouse CONFIGURE ZONE USING constraints = '[+rack=0]'"]) ∧
    configureZone dbAlwaysOk [] "warehouse" "p0_0" 0 [] =
      (.ok none,
        [Call.exec "ALTER PARTITION p0_0 OF TABLE warehouse CONFIGURE ZONE USING constraints = '[+rack=0]'"]) :=
  ⟨rfl,
    (configureZone_fallback_rule (dbFailingFirst "pq: syntax error at or near CONFIGURE") []
      "warehouse" "p0_0" 0 [] "[+rack=0]" rfl).2.1 "pq: syntax error at or near CONFIGURE" rfl rfl,
    (configureZone_fallback_rule (dbAlwaysFailing "connection refused") []
      "warehouse" "p0_0" 0 [] "[+rack=0]" rfl).2.2.1 "connection refused" rfl rfl,
    (configureZone_fallback_rule dbAlwaysOk [] "warehouse" "p0_0" 0 [] "[+rack=0]" rfl).2.2.2 rfl⟩

/-- C14: the first statement `configureZone` executes is exactly
`ALTER PARTITION <partition> OF TABLE <table> CONFIGURE ZONE USING constraints = '[+zone=<zones[k]>]'`
when zones are given and `k` is an index of `zones`, and exactly
`ALTER PARTITION <partition> OF TABLE <table> CONFIGURE ZONE USING constraints = '[+rack=<k>]'`
when there are no zones. -/
theorem configureZone_first_statement (db : DB) (tr : List Call) (table partition : String) :
    (∀ (zones : List String) (k : Nat) (hk : k < zones.length),
      ∃ r rest, configureZone db tr table partition (k : Int) zones =
        (r, tr ++ Call.exec ("ALTER PARTITION " ++ partition ++ " OF TABLE " ++ table ++
          " CONFIGURE ZONE USING constraints = '" ++ ("[+zone=" ++ zones.get ⟨k, hk⟩ ++ "]")
            ++ "'") :: rest)) ∧
    (∀ k : Int,
      ∃ r rest, configureZone db tr table partition k [] =
        (r, tr ++ Call.exec ("ALTER PARTITION " ++ partition ++ " OF TABLE " ++ table ++
          " CONFIGURE ZONE USING constraints = '" ++ ("[+rack=" ++ toString k ++ "]")
            ++ "'") :: rest)) := by
  have key : ∀ (constraint : Int) (zones : List String) (c : String),
      zoneConstraints constraint zones = .ok c →
      ∃ r rest, configureZone db tr table partition constraint zones =
        (r, tr ++ Call.exec (modernZoneStatement partition table c) :: rest) := by
    intro constraint zones c hc
    rcases configureZone_cases db tr table partition constraint zones with
      ⟨f, hf, _⟩ | ⟨c', hc', h⟩
    · rw [hc] at hf
      cases hf
    · rw [hc] at hc'
      cases hc'
      rcases h with ⟨_, h⟩ | ⟨_, _, _, h⟩ | ⟨_, _, _, _, h⟩ | ⟨_, _, _, _, _, h⟩
      · exact ⟨_, [], h⟩
      · exact ⟨_, [], h⟩
      · exact ⟨_, [_], h⟩
      · exact ⟨_, [_], h⟩
  exact ⟨fun zones k hk => key _ _ _ (zoneConstraints_zone zones k hk),
    fun k => key _ _ _ (zoneConstraints_rack k)⟩

theorem configureZone_first_statement_witness :
    (∃ r rest, configureZone dbAlwaysOk [] "warehouse" "p0_1" 1 ["us-east1", "us-west1"] =
      (r, Call.exec
        "ALTER PARTITION p0_1 OF TABLE warehouse CONFIGURE ZONE USING constraints = '[+zone=us-west1]'"
        :: rest)) ∧
    (∃ r rest, configureZone dbAlwaysOk [] "warehouse" "p0_1" 1 [] =
      (r, Call.exec
        "ALTER PARTITION p0_1 OF TABLE warehouse CONFIGURE ZONE USING constraints = '[+rack=1]'"
        :: rest)) :=
  ⟨(configureZone_first_statement dbAlwaysOk [] "warehouse" "p0_1").1
      ["us-east1", "us-west1"] 1 (by decide),
    (configureZone_first_statement dbAlwaysOk [] "warehouse" "p0_1").2 1⟩

/-- C15: whatever the executor does, `configureZone` executes at most two
statements, and when it returns, it returns an error if and only if the last
statement it executed failed.  A syntax-error failure of the modern form
followed by a success of the legacy form yields success; a failure of the
legacy form is returned with no third attempt, whatever its message. -/
theorem configureZone_at_most_two (db : DB) (tr : List Call) (table partition : String)
    (constraint : Int) (zones : List String) :
    (∃ new, (configureZone db tr table partition constraint zones).2 = tr ++ new ∧
      new.length ≤ 2 ∧ (∀ call ∈ new, ∃ stmt, call = Call.exec stmt) ∧
      ∀ ret, (configureZone db tr table partition constraint zones).1 = .ok ret →
        ∃ pre stmt, new = pre ++ [Call.exec stmt] ∧
          (ret.isSome ↔ (db.exec (tr ++ pre) stmt).isSome)) ∧
    (∀ c msg, zoneConstraints constraint zones = .ok c →
      db.exec tr (modernZoneStatement partition table c) = some msg →
      stringsContains msg "syntax error" = true →
      db.exec (tr ++ [Call.exec (modernZoneStatement partition table c)])
        (legacyZoneStatement partition table c) = none →
      configureZone db tr table partition constraint zones =
        (.ok none, tr ++ [Call.exec (modernZoneStatement partition table c),
          Call.exec (legacyZoneStatement partition table c)])) ∧
    (∀ c msg msg2, zoneConstraints constraint zones = .ok c →
      db.exec tr (modernZoneStatement partition table c) = some msg →
      stringsContains msg "syntax error" = true →
      db.exec (tr ++ [Call.exec (modernZoneStatement partition table c)])
        (legacyZoneStatement partition table c) = some msg2 →
      configureZone db tr table partition constraint zones =
        (.ok (some (.couldntExec (.driver msg2) (legacyZoneStatement partition table c))),
          tr ++ [Call.exec (modernZoneStatement partition table c),
            Call.exec (legacyZoneStatement partition table c)])) := by
  refine ⟨?_, ?_, ?_⟩
  · rcases configureZone_cases db tr table partition constraint zones with
      ⟨f, _, h⟩ | ⟨c, _, h⟩
    · refine ⟨[], by rw [h]; simp, by simp, by simp, ?_⟩
      intro ret hret
      rw [h] at hret
      cases hret
    · rcases h with ⟨h1, h⟩ | ⟨msg, h1, _, h⟩ | ⟨msg, h1, _, h3, h⟩ | ⟨msg, msg2, h1, _, h3, h⟩
      · refine ⟨[_], by rw [h], by simp, by simp, ?_⟩
        intro ret hret
        rw [h] at hret
        cases hret
        exact ⟨[], _, rfl, by simp [h1]⟩
      · refine ⟨[_], by rw [h], by simp, by simp, ?_⟩
        intro ret hret
        rw [h] at hret
        cases hret
        exact ⟨[], _, rfl, by simp [h1]⟩
      · refine ⟨[_, _], by rw [h], by simp, by simp, ?_⟩
        intro ret hret
        rw [h] at hret
        cases hret
        exact ⟨[_], _, rfl, by simp [h3]⟩
      · refine ⟨[_, _], by rw [h], by simp, by simp, ?_⟩
        intro ret hret
        rw [h] at hret
        cases hret
        exact ⟨[_], _, rfl, by simp [h3]⟩
  · intro c msg hc h1 h2 h3
    have h := configureZone_fallback db tr table partition constraint zones c msg hc h1 h2
    rw [h3] at h
    exact h
  · intro c msg msg2 hc h1 h2 h3
    have h := configureZone_fallback db tr table partition constraint zones c msg hc h1 h2
    rw [h3] at h
    exact h

theorem configureZone_at_most_two_witness :
    configureZone (dbFailingFirst "pq: syntax error at or near CONFIGURE") []
        "warehouse" "p0_0" 0 [] =
      (.ok none,
        [Call.exec (modernZoneStatement "p0_0" "warehouse" "[+rack=0]"),
          Call.exec (legacyZoneStatement "p0_0" "warehouse" "[+rack=0]")]) ∧
    configureZone (dbAlwaysFailing "pq: syntax error at or near CONFIGURE") []
        "warehouse" "p0_0" 0 [] =
      (.ok (some (.couldntExec (.driver "pq: syntax error at or near CONFIGURE")
          (legacyZoneStatement "p0_0" "warehouse" "[+rack=0]"))),
        [Call.exec (modernZoneStatement "p0_0" "warehouse" "[+rack=0]"),
          Call.exec (legacyZoneStatement "p0_0" "warehouse" "[+rack=0]")]) :=
  ⟨(configureZone_at_most_two (dbFailingFirst "pq: syntax error at or near CONFIGURE") []
      "warehouse" "p0_0" 0 []).2.1 "[+rack=0]" "pq: syntax error at or near CONFIGURE"
      rfl rfl rfl rfl,
    (configureZone_at_most_two (dbAlwaysFailing "pq: syntax error at or near CONFIGURE") []
      "warehouse" "p0_0" 0 []).2.2 "[+rack=0]" "pq: syntax error at or near CONFIGURE"
      "pq: syntax error at or near CONFIGURE" rfl rfl rfl rfl⟩

/-! ## The range statement -/

theorem makePartitioner_ok_inv (total active parts : Int) (p : partitioner)
    (hp : makePartitioner total active parts = .ok p) :
    validInput total active parts ∧ p = closedForm total active parts := by
  have hvalid : validInput total active parts := by
    by_contra hn
    have hinv : total ≤ 0 ∨ active ≤ 0 ∨ parts ≤ 0 ∨ active > total ∨ parts > total := by
      unfold validInput at hn
      omega
    obtain ⟨msg, hmsg⟩ := makePartitioner_invalid total active parts hinv
    rw [hmsg] at hp
    cases hp
  refine ⟨hvalid, ?_⟩
  rw [makePartitioner_closedForm total active parts hvalid] at hp
  cases hp
  rfl

theorem makePartitioner_bounds_length (total active parts : Int) (p : partitioner)
    (hp : makePartitioner total active parts = .ok p) :
    p.partBounds.length = p.parts.toNat + 1 := by
  obtain ⟨_, rfl⟩ := makePartitioner_ok_inv total active parts p hp
  simp [closedForm]

theorem foldl_append_string (l : List String) (init : String) :
    l.foldl (fun r s => r ++ s) init = init ++ String.join l := by
  induction l generalizing init with
  | nil => simp [String.join]
  | cons a l ih =>
    rw [List.foldl_cons, ih]
    unfold String.join
    rw [List.foldl_cons, ih ("" ++ a), String.empty_append, String.append_assoc]
    rfl

theorem string_join_cons (a : String) (l : List String) :
    String.join (a :: l) = a ++ String.join l := by
  unfold String.join
  rw [List.foldl_cons, foldl_append_string, String.empty_append]
  rfl

theorem rangeClauses_eq (p : partitioner) (idx : Int) (n i : Nat) (buf : String)
    (h : n = 0 ∨ i + n < p.partBounds.length) :
    rangeClauses p idx n i buf =
      .ok (buf ++ String.join ((List.range' i n).map (rangeClauseText p idx))) := by
  induction n generalizing i buf with
  | zero => simp [rangeClauses, String.join]
  | succ n ih =>
    have hlen : i + (n + 1) < p.partBounds.length := by
      rcases h with h | h
      · omega
      · exact h
    have hi : i < p.partBounds.length := by omega
    have hi1 : i + 1 < p.partBounds.length := by omega
    unfold rangeClauses
    rw [index_ok _ i hi, index_ok _ (i + 1) hi1]
    simp only
    rw [ih (i + 1) _ (by omega), List.range'_succ, List.map_cons, string_join_cons]
    congr 1
    have hcond : ((i : Int) + 1 < p.parts) ↔ (i + 1 < p.parts.toNat) := by omega
    have hlo : p.partBounds.getD i 0 = p.partBounds.get ⟨i, hi⟩ := by
      simp [List.getD_eq_getElem?_getD, List.getElem?_eq_getElem hi]
    have hhi : p.partBounds.getD (i + 1) 0 = p.partBounds.get ⟨i + 1, hi1⟩ := by
      simp [List.getD_eq_getElem?_getD, List.getElem?_eq_getElem hi1]
    unfold rangeClauseText
    rw [hlo, hhi]
    by_cases hc : i + 1 < p.parts.toNat
    · rw [if_pos (hcond.mpr hc), if_pos hc]
      simp only [String.append_assoc]
    · rw [if_neg (fun h' => hc (hcond.mp h')), if_neg hc]
      simp only [String.append_assoc, String.append_empty, String.empty_append]

theorem rangeStatement_eq (p : partitioner) (obj name col : String) (idx : Int)
    (h : p.parts.toNat + 1 ≤ p.partBounds.length) :
    rangeStatement p obj name col idx =
      .ok ("ALTER " ++ obj ++ " " ++ name ++ " PARTITION BY RANGE (" ++ col ++ ") (\n" ++
        String.join ((List.range p.parts.toNat).map (rangeClauseText p idx)) ++ ")\n") := by
  unfold rangeStatement
  rw [rangeClauses_eq p idx p.parts.toNat 0 _ (by omega), List.range_eq_range']

theorem partitionObject_stmt_fail (db : DB) (tr : List Call) (p : partitioner)
    (zones : List String) (obj name col table : String) (idx : Int) (stmt msg : String)
    (hs : rangeStatement p obj name col idx = .ok stmt) (hf : db.exec tr stmt = some msg) :
    partitionObject db tr p zones obj name col table idx =
      (.ok (some (.couldntExec (.driver msg) stmt)), tr ++ [Call.exec stmt]) := by
  unfold partitionObject
  rw [hs]
  simp only [hf]

theorem partitionObject_stmt_ok (db : DB) (tr : List Call) (p : partitioner)
    (zones : List String) (obj name col table : String) (idx : Int) (stmt : String)
    (hs : rangeStatement p obj name col idx = .ok stmt) (hok : db.exec tr stmt = none) :
    partitionObject db tr p zones obj name col table idx =
      configureZones db zones table idx p.parts.toNat 0 (tr ++ [Call.exec stmt]) := by
  unfold partitionObject
  rw [hs]
  simp only [hok]

theorem partitionObject_panic (db : DB) (tr : List Call) (p : partitioner)
    (zones : List String) (obj name col table : String) (idx : Int) (f : Failure)
    (hs : rangeStatement p obj name col idx = .error f) :
    partitionObject db tr p zones obj name col table idx = (.error f, tr) := by
  unfold partitionObject
  rw [hs]

theorem configureZones_eq_calls (db : DB) (zones : List String) (table : String) (idx : Int)
    (n i : Nat) (tr : List Call) :
    configureZones db zones table idx n i tr =
      zoneCallsInOrder db zones table
        ((List.range' i n).map fun (j : Nat) =>
          ("p" ++ toString idx ++ "_" ++ toString j, (j : Int))) tr := by
  induction n generalizing i tr with
  | zero => rfl
  | succ n ih =>
    rw [List.range'_succ, List.map_cons]
    unfold configureZones zoneCallsInOrder
    rcases hcz : configureZone db tr table ("p" ++ toString idx ++ "_" ++ toString i) (i : Int)
      zones with ⟨r, tr'⟩
    rcases r with f | ret
    · rfl
    · cases ret with
      | none => exact ih (i + 1) tr'
      | some err => rfl

theorem zoneCallsInOrder_append_ok (db : DB) (zones : List String) (table : String)
    (calls1 calls2 : List (String × Int)) (tr tr1 : List Call)
    (h : zoneCallsInOrder db zones table calls1 tr = (.ok none, tr1)) :
    zoneCallsInOrder db zones table (calls1 ++ calls2) tr =
      zoneCallsInOrder db zones table calls2 tr1 := by
  induction calls1 generalizing tr with
  | nil =>
    simp only [zoneCallsInOrder, Prod.mk.injEq] at h
    rw [List.nil_append, h.2]
  | cons c rest ih =>
    obtain ⟨partition, constraint⟩ := c
    rw [List.cons_append]
    simp only [zoneCallsInOrder] at h ⊢
    rcases hcz : configureZone db tr table partition constraint zones with ⟨r, tr'⟩
    rw [hcz] at h
    rcases r with f | ret
    · simp at h
    · cases ret with
      | none => exact ih tr' h
      | some err => simp at h

theorem zoneCallsInOrder_stop (db : DB) (zones : List String) (table : String)
    (calls1 calls2 : List (String × Int)) (partition : String) (constraint : Int)
    (tr tr1 tr2 : List Call) (err : GoError)
    (h : zoneCallsInOrder db zones table calls1 tr = (.ok none, tr1))
    (he : configureZone db tr1 table partition constraint zones = (.ok (some err), tr2)) :
    zoneCallsInOrder db zones table (calls1 ++ (partition, constraint) :: calls2) tr =
      (.ok (some err), tr2) := by
  rw [zoneCallsInOrder_append_ok db zones table calls1 _ tr tr1 h]
  unfold zoneCallsInOrder
  rw [he]

theorem zoneCallsInOrder_all_ok (db : DB) (zones : List String) (table : String)
    (hall : ∀ calls stmt, db.exec calls stmt = none)
    (calls : List (String × Int)) (cs : String × Int → String)
    (hcs : ∀ c ∈ calls, zoneConstraints c.2 zones = .ok (cs c)) (tr : List Call) :
    zoneCallsInOrder db zones table calls tr =
      (.ok none, tr ++ calls.map fun c => Call.exec (modernZoneStatement c.1 table (cs c))) := by
  induction calls generalizing tr with
  | nil => simp [zoneCallsInOrder]
  | cons c rest ih =>
    obtain ⟨partition, constraint⟩ := c
    unfold zoneCallsInOrder
    rw [configureZone_modern_ok db tr table partition constraint zones _
      (hcs _ (List.mem_cons_self _ _)) (hall _ _)]
    simp only
    rw [ih (fun c hc => hcs c (List.mem_cons_of_mem _ hc))]
    simp

theorem range_split (n i : Nat) (hi : i < n) :
    List.range n = List.range i ++ i :: List.range' (i + 1) (n - i - 1) := by
  rw [List.range_eq_range', List.range_eq_range']
  have h2 := List.range'_append 0 i (n - i - 1 + 1) 1
  simp only [Nat.zero_add, Nat.one_mul] at h2
  rw [List.range'_succ] at h2
  rw [h2]
  congr 1
  omega

/-! ## What the emitter leaves on the handle -/

theorem configureZone_extends (db : DB) (tr : List Call) (table partition : String)
    (constraint : Int) (zones : List String) :
    ∃ new, (configureZone db tr table partition constraint zones).2 = tr ++ new := by
  rcases configureZone_cases db tr table partition constraint zones with
    ⟨f, _, h⟩ | ⟨c, _, ⟨_, h⟩ | ⟨_, _, _, h⟩ | ⟨_, _, _, _, h⟩ | ⟨_, _, _, _, _, h⟩⟩
  · exact ⟨[], by rw [h]; simp⟩
  · exact ⟨_, by rw [h]⟩
  · exact ⟨_, by rw [h]⟩
  · exact ⟨_, by rw [h]⟩
  · exact ⟨_, by rw [h]⟩

theorem zoneCallsInOrder_extends (db : DB) (zones : List String) (table : String)
    (calls : List (String × Int)) (tr : List Call) :
    ∃ new, (zoneCallsInOrder db zones table calls tr).2 = tr ++ new := by
  induction calls generalizing tr with
  | nil => exact ⟨[], by simp [zoneCallsInOrder]⟩
  | cons c rest ih =>
    obtain ⟨partition, constraint⟩ := c
    obtain ⟨new1, h1⟩ := configureZone_extends db tr table partition constraint zones
    simp only [zoneCallsInOrder]
    rcases hcz : configureZone db tr table partition constraint zones with ⟨r, tr'⟩
    rw [hcz] at h1
    simp only at h1
    rcases r with f | ret
    · exact ⟨new1, h1⟩
    · cases ret with
      | none =>
        obtain ⟨new2, h2⟩ := ih tr'
        refine ⟨new1 ++ new2, ?_⟩
        simp only
        rw [h2, h1, List.append_assoc]
      | some err => exact ⟨new1, h1⟩

theorem partitionObject_trace (db : DB) (tr : List Call) (p : partitioner)
    (zones : List String) (obj name col table : String) (idx : Int) (stmt : String)
    (hs : rangeStatement p obj name col idx = .ok stmt) :
    ∃ r rest, partitionObject db tr p zones obj name col table idx =
      (r, tr ++ Call.exec stmt :: rest) := by
  cases hx : db.exec tr stmt with
  | some msg =>
    exact ⟨_, [], partitionObject_stmt_fail db tr p zones obj name col table idx stmt msg hs hx⟩
  | none =>
    rw [partitionObject_stmt_ok db tr p zones obj name col table idx stmt hs hx,
      configureZones_eq_calls]
    obtain ⟨new, hnew⟩ := zoneCallsInOrder_extends db zones table
      ((List.range' 0 p.parts.toNat).map fun (j : Nat) =>
        ("p" ++ toString idx ++ "_" ++ toString j, (j : Int))) (tr ++ [Call.exec stmt])
    refine ⟨_, new, Prod.ext rfl ?_⟩
    rw [hnew]
    simp

theorem reportsFailedExec_extend (db : DB) (tr new tr' : List Call) (err : GoError)
    (h : ReportsFailedExec db (tr ++ new) tr' err) : ReportsFailedExec db tr tr' err := by
  obtain ⟨pre, stmt, msg, h1, h2, h3⟩ := h
  exact ⟨new ++ pre, stmt, msg, by rw [h1]; simp, by rw [← List.append_assoc]; exact h2, h3⟩

theorem configureZone_reports (db : DB) (tr tr' : List Call) (table partition : String)
    (constraint : Int) (zones : List String) (err : GoError)
    (h : configureZone db tr table partition constraint zones = (.ok (some err), tr')) :
    ReportsFailedExec db tr tr' err := by
  rcases configureZone_cases db tr table partition constraint zones with
    ⟨f, _, h'⟩ | ⟨c, _, ⟨_, h'⟩ | ⟨msg, h1, _, h'⟩ | ⟨_, _, _, _, h'⟩ | ⟨msg, msg2, _, _, h3, h'⟩⟩
  all_goals rw [h'] at h
  all_goals simp only [Prod.mk.injEq, Except.ok.injEq, Option.some.injEq, reduceCtorEq,
    false_and] at h
  · obtain ⟨rfl, rfl⟩ := h
    exact ⟨[], _, msg, by simp, by simpa using h1, rfl⟩
  · obtain ⟨rfl, rfl⟩ := h
    exact ⟨[_], _, msg2, by simp, h3, rfl⟩

theorem zoneCallsInOrder_reports (db : DB) (zones : List String) (table : String)
    (calls : List (String × Int)) (tr tr' : List Call) (err : GoError)
    (h : zoneCallsInOrder db zones table calls tr = (.ok (some err), tr')) :
    ReportsFailedExec db tr tr' err := by
  induction calls generalizing tr with
  | nil => simp [zoneCallsInOrder] at h
  | cons c rest ih =>
    obtain ⟨partition, constraint⟩ := c
    simp only [zoneCallsInOrder] at h
    obtain ⟨new1, h1⟩ := configureZone_extends db tr table partition constraint zones
    rcases hcz : configureZone db tr table partition constraint zones with ⟨r, tr1⟩
    rw [hcz] at h h1
    simp only at h1
    rcases r with f | ret
    · simp at h
    · cases ret with
      | none =>
        simp only at h
        rw [h1] at h
        exact reportsFailedExec_extend db tr new1 tr' err (ih _ h)
      | some err1 =>
        simp only [Prod.mk.injEq, Except.ok.injEq, Option.some.injEq] at h
        obtain ⟨rfl, rfl⟩ := h
        exact configureZone_reports db tr _ table partition constraint zones _ hcz

theorem partitionObject_reports (db : DB) (tr tr' : List Call) (p : partitioner)
    (zones : List String) (obj name col table : String) (idx : Int) (err : GoError)
    (h : partitionObject db tr p zones obj name col table idx = (.ok (some err), tr')) :
    ReportsFailedExec db tr tr' err := by
  cases hs : rangeStatement p obj name col idx with
  | error f =>
    rw [partitionObject_panic db tr p zones obj name col table idx f hs] at h
    simp at h
  | ok stmt =>
    cases hx : db.exec tr stmt with
    | some msg =>
      rw [partitionObject_stmt_fail db tr p zones obj name col table idx stmt msg hs hx] at h
      simp only [Prod.mk.injEq, Except.ok.injEq, Option.some.injEq] at h
      obtain ⟨rfl, rfl⟩ := h
      exact ⟨[], stmt, msg, by simp, by simpa using hx, rfl⟩
    | none =>
      rw [partitionObject_stmt_ok db tr p zones obj name col table idx stmt hs hx,
        configureZones_eq_calls] at h
      exact reportsFailedExec_extend db tr _ tr' err
        (zoneCallsInOrder_reports db zones table _ _ tr' err h)

theorem replicateItemFrom_reports (db : DB) (i : Nat) (zones : List String)
    (tr tr' : List Call) (err : GoError)
    (h : replicateItemFrom db i zones tr = (.ok (some err), tr')) :
    ReportsFailedExec db tr tr' err := by
  induction zones generalizing i tr with
  | nil => simp [replicateItemFrom] at h
  | cons zone rest ih =>
    simp only [replicateItemFrom] at h
    split at h
    · rename_i msg hx
      simp only [Prod.mk.injEq, Except.ok.injEq, Option.some.injEq] at h
      obtain ⟨rfl, rfl⟩ := h
      exact ⟨[], _, msg, by simp, by simpa using hx, rfl⟩
    · split at h
      · rename_i hx1 msg hx2
        simp only [Prod.mk.injEq, Except.ok.injEq, Option.some.injEq] at h
        obtain ⟨rfl, rfl⟩ := h
        exact ⟨[_], _, msg, by simp, hx2, rfl⟩
      · exact reportsFailedExec_extend db tr _ tr' err (ih _ _ h)

/-! ## The claims on the DDL emitter -/

/-- C17: when the `PARTITION BY RANGE` statement of `partitionObject` fails,
with any message (one containing `"syntax error"` included), no further
statement is executed (no retry, no zone configuration) and the returned error
carries that statement and the failure as its cause. -/
theorem partitionObject_range_failure (db : DB) (tr : List Call) (p : partitioner)
    (zones : List String) (obj name col table : String) (idx : Int) (stmt msg : String)
    (hs : rangeStatement p obj name col idx = .ok stmt) (hf : db.exec tr stmt = some msg) :
    partitionObject db tr p zones obj name col table idx =
      (.ok (some (.couldntExec (.driver msg) stmt)), tr ++ [Call.exec stmt]) :=
  partitionObject_stmt_fail db tr p zones obj name col table idx stmt msg hs hf

theorem partitionObject_range_failure_witness :
    rangeStatement (closedForm 20 10 3) "TABLE" "warehouse" "w_id" 0 = .ok
      "ALTER TABLE warehouse PARTITION BY RANGE (w_id) (\n  PARTITION p0_0 VALUES FROM (0) to (6),\n  PARTITION p0_1 VALUES FROM (6) to (13),\n  PARTITION p0_2 VALUES FROM (13) to (20)\n)\n" ∧
    partitionObject (dbAlwaysFailing "pq: syntax error at or near PARTITION") []
        (closedForm 20 10 3) [] "TABLE" "warehouse" "w_id" "warehouse" 0 =
      (.ok (some (.couldntExec (.driver "pq: syntax error at or near PARTITION")
        "ALTER TABLE warehouse PARTITION BY RANGE (w_id) (\n  PARTITION p0_0 VALUES FROM (0) to (6),\n  PARTITION p0_1 VALUES FROM (6) to (13),\n  PARTITION p0_2 VALUES FROM (13) to (20)\n)\n")),
        [Call.exec
          "ALTER TABLE warehouse PARTITION BY RANGE (w_id) (\n  PARTITION p0_0 VALUES FROM (0) to (6),\n  PARTITION p0_1 VALUES FROM (6) to (13),\n  PARTITION p0_2 VALUES FROM (13) to (20)\n)\n"]) :=
  ⟨by rfl,
    partitionObject_range_failure (dbAlwaysFailing "pq: syntax error at or near PARTITION") []
      (closedForm 20 10 3) [] "TABLE" "warehouse" "w_id" "warehouse" 0 _
      "pq: syntax error at or near PARTITION" (by rfl) rfl⟩

/-- C18: when the `PARTITION BY RANGE` statement succeeds, `partitionObject`
goes on exactly as the calls of `configureZone` for `i = 0, 1, ..., parts-1` in
this order, the `i`-th for the partition name `p<idx>_<i>`, on the underlying
table (not the object name) and with constraint index `i`, each made once.  It
stops at the first of these calls that returns an error and returns that
error; when the executor accepts every statement it executes one zone
statement per partition and returns `nil`. -/
theorem partitionObject_zone_calls (db : DB) (tr : List Call) (p : partitioner)
    (zones : List String) (obj name col table : String) (idx : Int) (stmt : String)
    (hs : rangeStatement p obj name col idx = .ok stmt) (hok : db.exec tr stmt = none) :
    partitionObject db tr p zones obj name col table idx =
      zoneCallsInOrder db zones table
        ((List.range p.parts.toNat).map fun (i : Nat) =>
          ("p" ++ toString idx ++ "_" ++ toString i, (i : Int)))
        (tr ++ [Call.exec stmt]) ∧
    (∀ (i : Nat) (tr1 tr2 : List Call) (err : GoError), i < p.parts.toNat →
      zoneCallsInOrder db zones table
        ((List.range i).map fun (j : Nat) =>
          ("p" ++ toString idx ++ "_" ++ toString j, (j : Int)))
        (tr ++ [Call.exec stmt]) = (.ok none, tr1) →
      configureZone db tr1 table ("p" ++ toString idx ++ "_" ++ toString i) (i : Int) zones =
        (.ok (some err), tr2) →
      partitionObject db tr p zones obj name col table idx = (.ok (some err), tr2)) ∧
    (∀ cs : Nat → String, (∀ calls s, db.exec calls s = none) →
      (∀ i : Nat, i < p.parts.toNat → zoneConstraints (i : Int) zones = .ok (cs i)) →
      partitionObject db tr p zones obj name col table idx =
        (.ok none, tr ++ Call.exec stmt ::
          (List.range p.parts.toNat).map fun (i : Nat) =>
            Call.exec (modernZoneStatement ("p" ++ toString idx ++ "_" ++ toString i)
              table (cs i)))) := by
  have h0 := partitionObject_stmt_ok db tr p zones obj name col table idx stmt hs hok
  rw [configureZones_eq_calls, ← List.range_eq_range'] at h0
  refine ⟨h0, ?_, ?_⟩
  · intro i tr1 tr2 err hi h1 h2
    rw [h0, range_split p.parts.toNat i hi, List.map_append, List.map_cons]
    exact zoneCallsInOrder_stop db zones table _ _ _ _ _ tr1 tr2 err h1 h2
  · intro cs hall hcs
    rw [h0, zoneCallsInOrder_all_ok db zones table hall _ (fun c => cs c.2.toNat)]
    · simp [List.map_map, Function.comp_def]
    · intro c hc
      simp only [List.mem_map, List.mem_range] at hc
      obtain ⟨i, hi, rfl⟩ := hc
      simpa using hcs i hi

theorem partitionObject_zone_calls_witness :
    rangeStatement (closedForm 20 10 3) "TABLE" "warehouse" "w_id" 0 = .ok
      "ALTER TABLE warehouse PARTITION BY RANGE (w_id) (\n  PARTITION p0_0 VALUES FROM (0) to (6),\n  PARTITION p0_1 VALUES FROM (6) to (13),\n  PARTITION p0_2 VALUES FROM (13) to (20)\n)\n" ∧
    partitionObject dbAlwaysOk [] (closedForm 20 10 3) [] "TABLE" "warehouse" "w_id"
        "warehouse" 0 =
      zoneCallsInOrder dbAlwaysOk [] "warehouse"
        [("p0_0", 0), ("p0_1", 1), ("p0_2", 2)]
        [Call.exec
          "ALTER TABLE warehouse PARTITION BY RANGE (w_id) (\n  PARTITION p0_0 VALUES FROM (0) to (6),\n  PARTITION p0_1 VALUES FROM (6) to (13),\n  PARTITION p0_2 VALUES FROM (13) to (20)\n)\n"] :=
  ⟨by rfl,
    (partitionObject_zone_calls dbAlwaysOk [] (closedForm 20 10 3) [] "TABLE" "warehouse"
      "w_id" "warehouse" 0 _ (by rfl) rfl).1⟩

theorem indexExists_eq (db : DB) (tr : List Call) (table index : String) :
    indexExists db tr table index =
      match db.scan tr indexExistsQuery [table, index] with
      | .error msg =>
        ((false, some (.driver msg)), tr ++ [Call.queryRow indexExistsQuery [table, index]])
      | .ok found => ((found, none), tr ++ [Call.queryRow indexExistsQuery [table, index]]) :=
  rfl

/-- C19: when the existence probe reports the index absent (`false`, no
error), `partitionIndex` executes no statement (the probe is its only call on
the handle) and returns `nil`, whatever the partitioner, zones, table, index,
column and disambiguator. -/
theorem partitionIndex_absent (db : DB) (tr : List Call) (p : partitioner)
    (zones : List String) (table index col : String) (idx : Int)
    (hprobe : db.scan tr indexExistsQuery [table, index] = .ok false) :
    (indexExists db tr table index).1 = (false, none) ∧
    partitionIndex db tr p zones table index col idx =
      (.ok none, tr ++ [Call.queryRow indexExistsQuery [table, index]]) ∧
    ∀ stmt, Call.exec stmt ∈ (partitionIndex db tr p zones table index col idx).2 →
      Call.exec stmt ∈ tr := by
  have hie : indexExists db tr table index =
      ((false, none), tr ++ [Call.queryRow indexExistsQuery [table, index]]) := by
    rw [indexExists_eq, hprobe]
  have hres : partitionIndex db tr p zones table index col idx =
      (.ok none, tr ++ [Call.queryRow indexExistsQuery [table, index]]) := by
    unfold partitionIndex
    rw [hie]
  refine ⟨by rw [hie], hres, ?_⟩
  intro stmt hmem
  rw [hres] at hmem
  simpa using hmem

theorem partitionIndex_absent_witness :
    dbAlwaysOk.scan [] indexExistsQuery ["order_line", "order_line_stock_fk_idx"] = .ok false ∧
    partitionIndex dbAlwaysOk [] (closedForm 20 10 3) [] "order_line"
        "order_line_stock_fk_idx" "ol_supply_w_id" 1 =
      (.ok none,
        [Call.queryRow indexExistsQuery ["order_line", "order_line_stock_fk_idx"]]) :=
  ⟨rfl,
    (partitionIndex_absent dbAlwaysOk [] (closedForm 20 10 3) [] "order_line"
      "order_line_stock_fk_idx" "ol_supply_w_id" 1 rfl).2.1⟩

/-- C20: when the existence probe itself fails, `partitionIndex` returns that
error and executes no statement; and `partitionIndex` returns `nil` with
nothing but the probe on the handle only when the probe succeeded with the
result `false`: a failed probe is never taken for an absent index. -/
theorem partitionIndex_probe_failure (db : DB) (tr : List Call) (p : partitioner)
    (zones : List String) (table index col : String) (idx : Int) :
    (∀ msg, db.scan tr indexExistsQuery [table, index] = .error msg →
      (indexExists db tr table index).1 = (false, some (.driver msg)) ∧
      partitionIndex db tr p zones table index col idx =
        (.ok (some (.driver msg)), tr ++ [Call.queryRow indexExistsQuery [table, index]])) ∧
    (partitionIndex db tr p zones table index col idx =
        (.ok none, tr ++ [Call.queryRow indexExistsQuery [table, index]]) →
      db.scan tr indexExistsQuery [table, index] = .ok false) := by
  refine ⟨?_, ?_⟩
  · intro msg hscan
    have hie : indexExists db tr table index = ((false, some (.driver msg)),
        tr ++ [Call.queryRow indexExistsQuery [table, index]]) := by
      rw [indexExists_eq, hscan]
    refine ⟨by rw [hie], ?_⟩
    unfold partitionIndex
    rw [hie]
  · intro hres
    unfold partitionIndex at hres
    rw [indexExists_eq] at hres
    cases hscan : db.scan tr indexExistsQuery [table, index] with
    | error msg =>
      rw [hscan] at hres
      simp at hres
    | ok found =>
      rw [hscan] at hres
      cases found with
      | false => rfl
      | true =>
        exfalso
        simp only at hres
        cases hs : rangeStatement p "INDEX" (table ++ "@" ++ index) col idx with
        | error f =>
          rw [partitionObject_panic db _ p zones _ _ col table idx f hs] at hres
          simp at hres
        | ok stmt =>
          obtain ⟨r, rest, hpo⟩ := partitionObject_trace db
            (tr ++ [Call.queryRow indexExistsQuery [table, index]]) p zones "INDEX"
            (table ++ "@" ++ index) col table idx stmt hs
          rw [hpo] at hres
          simp only [Prod.mk.injEq] at hres
          have hlen := congrArg List.length hres.2
          simp at hlen

theorem partitionIndex_probe_failure_witness :
    (dbAlwaysFailing "connection refused").scan [] indexExistsQuery
        ["customer", "customer_idx"] = .error "connection refused" ∧
    partitionIndex (dbAlwaysFailing "connection refused") [] (closedForm 20 10 3) []
        "customer" "customer_idx" "c_w_id" 1 =
      (.ok (some (.driver "connection refused")),
        [Call.queryRow indexExistsQuery ["customer", "customer_idx"]]) :=
  ⟨rfl,
    ((partitionIndex_probe_failure (dbAlwaysFailing "connection refused") []
      (closedForm 20 10 3) [] "customer" "customer_idx" "c_w_id" 1).1
        "connection refused" rfl).2⟩

/-! ## The message of a wrapped error -/

theorem digitChar_ne_newline (d : Nat) (hd : d < 16) : Nat.digitChar d ≠ Char.ofNat 10 := by
  interval_cases d <;> decide

theorem newline_not_mem_hexFixed (width n : Nat) : Char.ofNat 10 ∉ hexFixed width n := by
  unfold hexFixed
  intro h
  obtain ⟨k, _, hk⟩ := List.mem_map.mp h
  exact digitChar_ne_newline _ (Nat.mod_lt _ (by decide)) hk

theorem newline_not_mem_escape (x : Char) (l : List Char) (hx : x ≠ Char.ofNat 10)
    (hl : Char.ofNat 10 ∉ l) : Char.ofNat 10 ∉ Char.ofNat 92 :: x :: l := by
  intro hm
  rcases List.mem_cons.mp hm with h | h
  · exact absurd h (by decide)
  · rcases List.mem_cons.mp h with h | h
    · exact hx h.symm
    · exact hl h

theorem newline_not_mem_quoteRune (isPrint : Char → Bool) (c : Char) :
    Char.ofNat 10 ∉ quoteRune isPrint c := by
  have hx := newline_not_mem_hexFixed
  have hc : c = Char.ofNat 10 → c.toNat = 10 := fun h => by rw [h]; rfl
  have hsingle : 10 ≠ c.toNat → Char.ofNat 10 ∉ [c] := fun hne hm =>
    hne (hc (List.mem_singleton.mp hm).symm).symm
  unfold quoteRune
  by_cases h1 : c = Char.ofNat 34 ∨ c = Char.ofNat 92
  · rw [if_pos h1]
    rcases h1 with h1 | h1 <;> rw [h1] <;> decide
  · rw [if_neg h1]
    by_cases h2 : c.toNat < 128
    · rw [if_pos h2]
      by_cases h3 : 32 ≤ c.toNat ∧ c.toNat < 127
      · rw [if_pos h3]
        exact hsingle (by omega)
      · rw [if_neg h3]
        repeat' split
        all_goals first
          | exact newline_not_mem_escape _ _ (by decide) (List.not_mem_nil _)
          | exact newline_not_mem_escape _ _ (by decide) (hx _ _)
    · rw [if_neg h2]
      by_cases h3 : isPrint c = true
      · rw [if_pos h3]
        exact hsingle (by omega)
      · rw [if_neg h3]
        split
        all_goals exact newline_not_mem_escape _ _ (by decide) (hx _ _)

theorem newline_not_mem_goQuote (isPrint : Char → Bool) (s : String) :
    Char.ofNat 10 ∉ (goQuote isPrint s).toList := by
  unfold goQuote
  intro h
  simp only [String.toList, List.mem_cons, List.mem_append, List.mem_flatMap,
    List.mem_singleton, List.not_mem_nil, or_false] at h
  rcases h with h | ⟨c, _, h⟩ | h
  · exact absurd h (by decide)
  · exact newline_not_mem_quoteRune isPrint c h
  · exact absurd h (by decide)

theorem flatMap_quoteRune_plain (isPrint : Char → Bool) (l : List Char)
    (h : ∀ c ∈ l, 32 ≤ c.toNat ∧ c.toNat < 127 ∧ c ≠ Char.ofNat 34 ∧ c ≠ Char.ofNat 92) :
    l.flatMap (quoteRune isPrint) = l := by
  induction l with
  | nil => rfl
  | cons c l ih =>
    obtain ⟨h1, h2, h3, h4⟩ := h c (List.mem_cons_self _ _)
    rw [List.flatMap_cons, ih (fun d hd => h d (List.mem_cons_of_mem _ hd))]
    unfold quoteRune
    rw [if_neg (by tauto), if_pos (by omega), if_pos ⟨h1, h2⟩]
    rfl

theorem error_message_eq (isPrint : Char → Bool) (msg stmt : String) :
    (GoError.couldntExec (.driver msg) stmt).Error isPrint =
      "Couldn't exec " ++ goQuote isPrint stmt ++ ": " ++ msg := rfl

theorem plain_statement_in_message (isPrint : Char → Bool) (msg stmt : String)
    (h : ∀ c ∈ stmt.toList,
      32 ≤ c.toNat ∧ c.toNat < 127 ∧ c ≠ Char.ofNat 34 ∧ c ≠ Char.ofNat 92) :
    stmt.toList <:+: ((GoError.couldntExec (.driver msg) stmt).Error isPrint).toList := by
  rw [error_message_eq]
  unfold goQuote
  rw [flatMap_quoteRune_plain isPrint stmt.toList h]
  refine ⟨"Couldn't exec ".toList ++ [Char.ofNat 34], [Char.ofNat 34] ++ ": ".toList ++ msg.toList, ?_⟩
  simp [String.toList, List.append_assoc]

/-- C16, as stated, fails: with the partitioner of `(20, 10, 3)` and an executor
refusing every statement, `partitionWarehouse` returns an error whose message
does not contain the text of the statement it executed, for the statement has
newlines and the verb `%q` of the message writes them as a backslash and `n`. -/
theorem couldntExec_message_escapes_statement :
    ∃ p err stmt, makePartitioner 20 10 3 = .ok p ∧
      partitionWarehouse (dbAlwaysFailing "boom") [] p [] =
        (.ok (some err), [Call.exec stmt]) ∧
      ∀ isPrint : Char → Bool, ¬ (stmt.toList <:+: (err.Error isPrint).toList) := by
  refine ⟨closedForm 20 10 3, _, _, by rfl, by rfl, ?_⟩
  intro isPrint hinfix
  have hmem : Char.ofNat 10 ∈ (GoError.Error isPrint (.couldntExec (.driver "boom")
      "ALTER TABLE warehouse PARTITION BY RANGE (w_id) (\n  PARTITION p0_0 VALUES FROM (0) to (6),\n  PARTITION p0_1 VALUES FROM (6) to (13),\n  PARTITION p0_2 VALUES FROM (13) to (20)\n)\n")).toList :=
    hinfix.subset (by decide)
  rw [error_message_eq] at hmem
  simp only [String.toList, String.data_append, List.mem_append] at hmem
  rcases hmem with ((h | h) | h) | h
  · exact absurd h (by decide)
  · exact newline_not_mem_goQuote isPrint _ h
  · exact absurd h (by decide)
  · exact absurd h (by decide)

/-- C16, amended: whenever `configureZone`, `partitionObject` or
`replicateItem` returns an error, the last call on the handle is a statement
that failed, the returned error wraps the executor's error of that statement
as its cause, and its message is `Couldn't exec `, the statement in the quoted
form of `%q`, `: ` and the message of the cause; the exact text of the
statement occurs in the message when the statement has no character that `%q`
escapes.  After a fallback of `configureZone` the statement and the cause are
those of the legacy attempt. -/
theorem failed_exec_report :
    (∀ (db : DB) (tr tr' : List Call) (err : GoError),
      ((∃ table partition constraint zones,
          configureZone db tr table partition constraint zones = (.ok (some err), tr')) ∨
        (∃ p zones obj name col table idx,
          partitionObject db tr p zones obj name col table idx = (.ok (some err), tr')) ∨
        (∃ zones, replicateItem db tr zones = (.ok (some err), tr'))) →
      ∃ (pre : List Call) (stmt msg : String),
        tr' = tr ++ pre ++ [Call.exec stmt] ∧ db.exec (tr ++ pre) stmt = some msg ∧
        err = .couldntExec (.driver msg) stmt ∧
        (∀ isPrint : Char → Bool,
          err.Error isPrint = "Couldn't exec " ++ goQuote isPrint stmt ++ ": " ++ msg) ∧
        ((∀ c ∈ stmt.toList,
            32 ≤ c.toNat ∧ c.toNat < 127 ∧ c ≠ Char.ofNat 34 ∧ c ≠ Char.ofNat 92) →
          ∀ isPrint : Char → Bool, stmt.toList <:+: (err.Error isPrint).toList)) ∧
    (∀ (db : DB) (tr : List Call) (table partition : String) (constraint : Int)
      (zones : List String) (c msg msg2 : String),
      zoneConstraints constraint zones = .ok c →
      db.exec tr (modernZoneStatement partition table c) = some msg →
      stringsContains msg "syntax error" = true →
      db.exec (tr ++ [Call.exec (modernZoneStatement partition table c)])
        (legacyZoneStatement partition table c) = some msg2 →
      configureZone db tr table partition constraint zones =
        (.ok (some (.couldntExec (.driver msg2) (legacyZoneStatement partition table c))),
          tr ++ [Call.exec (modernZoneStatement partition table c),
            Call.exec (legacyZoneStatement partition table c)])) := by
  constructor
  · intro db tr tr' err h
    have hrep : ReportsFailedExec db tr tr' err := by
      rcases h with ⟨table, partition, constraint, zones, h⟩ |
        ⟨p, zones, obj, name, col, table, idx, h⟩ | ⟨zones, h⟩
      · exact configureZone_reports db tr tr' table partition constraint zones err h
      · exact partitionObject_reports db tr tr' p zones obj name col table idx err h
      · exact replicateItemFrom_reports db 0 zones tr tr' err h
    obtain ⟨pre, stmt, msg, h1, h2, rfl⟩ := hrep
    exact ⟨pre, stmt, msg, h1, h2, rfl, fun isPrint => error_message_eq isPrint msg stmt,
      fun hplain isPrint => plain_statement_in_message isPrint msg stmt hplain⟩
  · intro db tr table partition constraint zones c msg msg2 hc h1 h2 h3
    have h := configureZone_fallback db tr table partition constraint zones c msg hc h1 h2
    rw [h3] at h
    exact h

theorem failed_exec_report_witness :
    configureZone (dbAlwaysFailing "connection refused") [] "warehouse" "p0_0" 0 [] =
      (.ok (some (.couldntExec (.driver "connection refused")
          (modernZoneStatement "p0_0" "warehouse" "[+rack=0]"))),
        [Call.exec (modernZoneStatement "p0_0" "warehouse" "[+rack=0]")]) ∧
    ∃ (pre : List Call) (stmt msg : String),
      [Call.exec (modernZoneStatement "p0_0" "warehouse" "[+rack=0]")] =
        [] ++ pre ++ [Call.exec stmt] ∧
      (dbAlwaysFailing "connection refused").exec ([] ++ pre) stmt = some msg ∧
      GoError.couldntExec (.driver "connection refused")
          (modernZoneStatement "p0_0" "warehouse" "[+rack=0]") =
        .couldntExec (.driver msg) stmt ∧
      (∀ isPrint : Char → Bool,
        (GoError.couldntExec (.driver "connection refused")
            (modernZoneStatement "p0_0" "warehouse" "[+rack=0]")).Error isPrint =
          "Couldn't exec " ++ goQuote isPrint stmt ++ ": " ++ msg) ∧
      ((∀ c ∈ stmt.toList,
          32 ≤ c.toNat ∧ c.toNat < 127 ∧ c ≠ Char.ofNat 34 ∧ c ≠ Char.ofNat 92) →
        ∀ isPrint : Char → Bool, stmt.toList <:+:
          ((GoError.couldntExec (.driver "connection refused")
            (modernZoneStatement "p0_0" "warehouse" "[+rack=0]")).Error isPrint).toList) :=
  ⟨by rfl,
    failed_exec_report.1 (dbAlwaysFailing "connection refused") [] _ _
      (Or.inl ⟨"warehouse", "p0_0", 0, [], by rfl⟩)⟩

/-! ## The shape of the active runs -/

theorem sizeAt_le_width_succ (total active parts : Int) (i : Nat) (hat : active ≤ total)
    (hp : 0 < parts) : sizeAt active parts i ≤ sizeAt total parts i + 1 := by
  have h1 := (sizeAt_bounds active parts i hp).2
  have h2 := (sizeAt_bounds total parts i hp).1
  have h3 : active / parts ≤ total / parts := Int.ediv_le_ediv hp hat
  omega

theorem sizeAt_last (active parts : Int) (hp : 0 < parts) :
    sizeAt active parts (parts.toNat - 1) = -((-active) / parts) := by
  unfold sizeAt
  have hc : ((parts.toNat - 1 : Nat) : Int) = parts - 1 := by omega
  rw [hc]
  have e1 : (parts - 1 + 1) * active = parts * active := by ring
  have e2 : (parts - 1) * active = -active + parts * active := by ring
  rw [e1, e2, Int.mul_ediv_cancel_left _ (ne_of_gt hp),
    Int.add_mul_ediv_left _ _ (ne_of_gt hp)]
  omega

theorem width_pos (total parts : Int) (i : Nat) (hp : 0 < parts) (hpt : parts ≤ total) :
    1 ≤ sizeAt total parts i := by
  have h1 := (sizeAt_bounds total parts i hp).1
  have h2 : parts / parts ≤ total / parts := Int.ediv_le_ediv hp hpt
  rw [Int.ediv_self (ne_of_gt hp)] at h2
  omega

theorem boundAt_succ (total parts : Int) (i : Nat) :
    boundAt total parts (i + 1) = boundAt total parts i + sizeAt total parts i := by
  rw [sizeAt_eq]
  omega

theorem boundAt_strictMono (total parts : Int) (hp : 0 < parts) (hpt : parts ≤ total)
    {i j : Nat} (hij : i < j) : boundAt total parts i < boundAt total parts j := by
  have h1 : boundAt total parts (i + 1) ≤ boundAt total parts j :=
    boundAt_mono total parts (by omega) hp hij
  have h2 := boundAt_succ total parts i
  have h3 := width_pos total parts i hp hpt
  omega

theorem run_end_le_total (total active parts : Int) (i : Nat)
    (h : validInput total active parts) (hi : i < parts.toNat) :
    boundAt total parts i + sizeAt active parts i ≤ total := by
  obtain ⟨h1, h2, h3, h4⟩ := h
  by_cases hlast : i + 1 < parts.toNat
  · have hs := sizeAt_le_width_succ total active parts i h2 h3
    have hb := boundAt_succ total parts i
    have hlt : boundAt total parts (i + 1) < boundAt total parts parts.toNat :=
      boundAt_strictMono total parts h3 h4 hlast
    rw [boundAt_parts total parts h3] at hlt
    omega
  · have hi' : i = parts.toNat - 1 := by omega
    subst hi'
    have hb := boundAt_succ total parts (parts.toNat - 1)
    have hpp : parts.toNat - 1 + 1 = parts.toNat := by omega
    rw [hpp, boundAt_parts total parts h3] at hb
    rw [sizeAt_last active parts h3]
    rw [sizeAt_last total parts h3] at hb
    have hmono : (-total) / parts ≤ (-active) / parts := Int.ediv_le_ediv h3 (by omega)
    omega

theorem andThen_assoc (o : Outcome) (f g : List Call → Outcome) :
    andThen (andThen o f) g = andThen o (fun tr => andThen (f tr) g) := by
  rcases o with ⟨r, tr⟩
  rcases r with e | ret
  · rfl
  · cases ret <;> rfl

theorem andThen_nil (tr : List Call) (f : List Call → Outcome) :
    andThen (.ok none, tr) f = f tr := rfl

theorem andThen_done (o : Outcome) : andThen o (fun tr => (.ok none, tr)) = o := by
  rcases o with ⟨r, tr⟩
  rcases r with e | ret
  · rfl
  · cases ret <;> rfl

theorem partitionTables_eq_catalog (db : DB) (tr : List Call) (p : partitioner)
    (zones : List String) :
    partitionTables db tr p zones =
      andThen (runTargets db p zones catalog tr) (fun tr => replicateItem db tr zones) := by
  simp only [partitionTables, partitionWarehouse, partitionDistrict, partitionNewOrder,
    partitionOrder, partitionOrderLine, partitionStock, partitionCustomer, partitionHistory,
    catalog, runTargets, Target.run, andThen_assoc, andThen_nil]

/-! ## Decimal digits: `%d` is injective -/

theorem charDigit_digitChar (d : Nat) (hd : d < 10) : charDigit (Nat.digitChar d) = d := by
  interval_cases d <;> rfl

theorem digitChar_ne_marks (d : Nat) (hd : d < 10) :
    Nat.digitChar d ≠ '_' ∧ Nat.digitChar d ≠ '-' := by
  interval_cases d <;> exact ⟨by decide, by decide⟩

theorem toDigitsCore_append (fuel n : Nat) (ds : List Char) :
    Nat.toDigitsCore 10 fuel n ds = Nat.toDigitsCore 10 fuel n [] ++ ds := by
  induction fuel generalizing n ds with
  | zero => simp [Nat.toDigitsCore]
  | succ fuel ih =>
    simp only [Nat.toDigitsCore]
    split
    · rfl
    · rw [ih (n / 10) (Nat.digitChar (n % 10) :: ds), ih (n / 10) [Nat.digitChar (n % 10)]]
      simp

theorem digitsValue_toDigitsCore (fuel n : Nat) (h : n < fuel) :
    digitsValue (Nat.toDigitsCore 10 fuel n []) = n := by
  induction fuel generalizing n with
  | zero => omega
  | succ fuel ih =>
    simp only [Nat.toDigitsCore]
    split
    · rename_i h0
      simp only [digitsValue, List.foldl_cons, List.foldl_nil, Nat.zero_mul, Nat.zero_add]
      rw [charDigit_digitChar _ (Nat.mod_lt _ (by decide))]
      omega
    · rename_i h0
      rw [toDigitsCore_append]
      have hlt : n / 10 < fuel := by omega
      have := ih (n / 10) hlt
      unfold digitsValue at this ⊢
      rw [List.foldl_append, this]
      simp only [List.foldl_cons, List.foldl_nil]
      rw [charDigit_digitChar _ (Nat.mod_lt _ (by decide))]
      omega

theorem mem_toDigitsCore (fuel n : Nat) (c : Char) (h : c ∈ Nat.toDigitsCore 10 fuel n []) :
    ∃ d, d < 10 ∧ c = Nat.digitChar d := by
  induction fuel generalizing n with
  | zero => simp [Nat.toDigitsCore] at h
  | succ fuel ih =>
    simp only [Nat.toDigitsCore] at h
    split at h
    · rw [List.mem_singleton] at h
      exact ⟨n % 10, Nat.mod_lt _ (by decide), h⟩
    · rw [toDigitsCore_append, List.mem_append, List.mem_singleton] at h
      rcases h with h | h
      · exact ih _ h
      · exact ⟨n % 10, Nat.mod_lt _ (by decide), h⟩

theorem natRepr_injective (n m : Nat) (h : Nat.repr n = Nat.repr m) : n = m := by
  unfold Nat.repr Nat.toDigits List.asString at h
  have hd : Nat.toDigitsCore 10 (n + 1) n [] = Nat.toDigitsCore 10 (m + 1) m [] :=
    congrArg String.data h
  have h1 := digitsValue_toDigitsCore (n + 1) n (by omega)
  have h2 := digitsValue_toDigitsCore (m + 1) m (by omega)
  rw [hd] at h1
  omega

theorem natRepr_chars (n : Nat) (c : Char) (h : c ∈ (Nat.repr n).data) :
    c ≠ '_' ∧ c ≠ '-' := by
  unfold Nat.repr Nat.toDigits List.asString at h
  obtain ⟨d, hd, rfl⟩ := mem_toDigitsCore _ _ _ h
  exact digitChar_ne_marks d hd

theorem intToString_cases (a : Int) :
    (∃ n : Nat, a = (n : Int) ∧ toString a = Nat.repr n) ∨
    (∃ n : Nat, a = Int.negSucc n ∧ toString a = "-" ++ Nat.repr (n + 1)) := by
  cases a with
  | ofNat n => exact Or.inl ⟨n, rfl, rfl⟩
  | negSucc n => exact Or.inr ⟨n, rfl, rfl⟩

theorem intToString_no_underscore (a : Int) : '_' ∉ (toString a).data := by
  rcases intToString_cases a with ⟨n, _, h⟩ | ⟨n, _, h⟩
  · rw [h]
    exact fun hm => (natRepr_chars n _ hm).1 rfl
  · rw [h, String.data_append]
    intro hm
    rcases List.mem_append.mp hm with hm | hm
    · exact absurd hm (by decide)
    · exact (natRepr_chars _ _ hm).1 rfl

theorem intToString_injective (a b : Int) (h : toString a = toString b) : a = b := by
  rcases intToString_cases a with ⟨n, rfl, ha⟩ | ⟨n, rfl, ha⟩ <;>
    rcases intToString_cases b with ⟨m, rfl, hb⟩ | ⟨m, rfl, hb⟩
  · rw [ha, hb] at h
    rw [natRepr_injective n m h]
  · rw [ha, hb] at h
    exfalso
    have hm : '-' ∈ (Nat.repr n).data := by
      rw [h, String.data_append]
      exact List.mem_append_left _ (by decide)
    exact (natRepr_chars n _ hm).2 rfl
  · rw [ha, hb] at h
    exfalso
    have hm : '-' ∈ (Nat.repr m).data := by
      rw [← h, String.data_append]
      exact List.mem_append_left _ (by decide)
    exact (natRepr_chars m _ hm).2 rfl
  · rw [ha, hb] at h
    have hd := congrArg String.data h
    rw [String.data_append, String.data_append] at hd
    have := List.append_cancel_left hd
    have hnm := natRepr_injective (n + 1) (m + 1) (String.ext this)
    have : n = m := by omega
    rw [this]

theorem append_cons_inj (a : Char) (l1 l2 r1 r2 : List Char)
    (h : l1 ++ a :: r1 = l2 ++ a :: r2) (h1 : a ∉ l1) (h2 : a ∉ l2) : l1 = l2 ∧ r1 = r2 := by
  induction l1 generalizing l2 with
  | nil =>
    cases l2 with
    | nil => simpa using h
    | cons b l2 =>
      simp only [List.nil_append, List.cons_append, List.cons.injEq] at h
      exact absurd (h.1 ▸ List.mem_cons_self _ _) h2
  | cons c l1 ih =>
    cases l2 with
    | nil =>
      simp only [List.nil_append, List.cons_append, List.cons.injEq] at h
      exact absurd (h.1 ▸ List.mem_cons_self _ _) h1
    | cons b l2 =>
      simp only [List.cons_append, List.cons.injEq] at h
      obtain ⟨rfl, h⟩ := h
      obtain ⟨e1, e2⟩ := ih l2 h (fun hm => h1 (List.mem_cons_of_mem _ hm))
        (fun hm => h2 (List.mem_cons_of_mem _ hm))
      exact ⟨by rw [e1], e2⟩

theorem partitionName_injective (d d' : Int) (i i' : Nat)
    (h : partitionName d i = partitionName d' i') : d = d' ∧ i = i' := by
  unfold partitionName at h
  have hd := congrArg String.data h
  simp only [String.data_append] at hd
  simp only [List.append_assoc, List.singleton_append, List.cons.injEq, true_and] at hd
  have hn : ∀ a : Int, '_' ∉ 'p' :: (toString a).data := by
    intro a hm
    rcases List.mem_cons.mp hm with hm | hm
    · exact absurd hm (by decide)
    · exact intToString_no_underscore a hm
  obtain ⟨e1, e2⟩ := append_cons_inj '_' _ _ _ _ hd (hn d) (hn d')
  exact ⟨intToString_injective d d' (String.ext (List.cons.inj e1).2),
    natRepr_injective i i' (String.ext e2)⟩

theorem replicatedName_injective (i j : Nat)
    (h : "replicated_idx_" ++ toString i = "replicated_idx_" ++ toString j) : i = j := by
  have hd := congrArg String.data h
  rw [String.data_append, String.data_append] at hd
  exact natRepr_injective i j (String.ext (List.append_cancel_left hd))

/-! ## The claims on the orchestrator: names and catalog -/

theorem catalog_disambiguators :
    List.Pairwise (fun t u : Target => t.tableName = u.tableName →
      t.disambiguator ≠ u.disambiguator) catalog := by
  decide

/-- C21: partition names never collide within a table.  `partitionTables` is
the run of the catalog below; in it two passes on the same table have
different disambiguators (0 for the table pass, 1 or 2 for the index passes);
the map `(d, i) ↦ p<d>_<i>` is injective; hence no name of one pass is a name
of another pass on the same table, and the names of one pass are distinct. -/
theorem partition_names_distinct :
    (∀ (db : DB) (tr : List Call) (p : partitioner) (zones : List String),
      partitionTables db tr p zones =
        andThen (runTargets db p zones catalog tr) (fun tr => replicateItem db tr zones)) ∧
    (∀ (idx : Int) (i : Nat), partitionName idx i = "p" ++ toString idx ++ "_" ++ toString i) ∧
    (∀ (d d' : Int) (i i' : Nat), partitionName d i = partitionName d' i' → d = d' ∧ i = i') ∧
    (∀ t ∈ catalog, (t.isIndex = false → t.disambiguator = 0) ∧
      (t.isIndex = true → t.disambiguator = 1 ∨ t.disambiguator = 2)) ∧
    List.Pairwise (fun t u : Target => t.tableName = u.tableName →
      ∀ i j : Nat, partitionName t.disambiguator i ≠ partitionName u.disambiguator j) catalog ∧
    (∀ (d : Int) (i j : Nat), i ≠ j → partitionName d i ≠ partitionName d j) := by
  refine ⟨partitionTables_eq_catalog, fun _ _ => rfl, partitionName_injective, ?_, ?_, ?_⟩
  · decide
  · refine catalog_disambiguators.imp ?_
    intro t u h htu i j hname
    exact h htu (partitionName_injective _ _ _ _ hname).1
  · intro d i j hij hname
    exact hij (partitionName_injective _ _ _ _ hname).2

/-- C22, as stated, fails: run with an executor on which everything succeeds
and every index is found, `partitionTables` probes the indexes of four
different tables (`"order"`, `order_line`, `customer`, `history`), not of
three. -/
theorem four_tables_have_index_passes :
    ∃ p, makePartitioner 1 1 1 = .ok p ∧
      (partitionTables dbAllPresent [] p []).2.filterMap probedTable =
        [orderTable, "order_line", "customer", "history", "history"] ∧
      [orderTable, "order_line", "customer", "history"].Nodup ∧
      ([orderTable, "order_line", "customer", "history", "history"].dedup).length = 4 ∧
      ([orderTable, "order_line", "customer", "history", "history"].dedup).length ≠ 3 :=
  ⟨closedForm 1 1 1, by rfl, by rfl, by decide, by decide, by decide⟩

/-- C22, amended: the catalog that `partitionTables` runs consists of the
primary table `warehouse` plus seven further tables; exactly four of those
seven (`"order"`, `order_line`, `customer`, `history`) additionally have one or
two secondary-index passes (`history` has two), which use the disambiguators 1
and 2, while every table-level pass uses the disambiguator 0. -/
theorem catalog_shape :
    (∀ (db : DB) (tr : List Call) (p : partitioner) (zones : List String),
      partitionTables db tr p zones =
        andThen (runTargets db p zones catalog tr) (fun tr => replicateItem db tr zones)) ∧
    (catalog.filter fun t => !t.isIndex) =
      [.table "warehouse" "w_id" 0, .table "district" "d_w_id" 0,
        .table "new_order" "no_w_id" 0, .table orderTable "o_w_id" 0,
        .table "order_line" "ol_w_id" 0, .table "stock" "s_w_id" 0,
        .table "customer" "c_w_id" 0, .table "history" "h_w_id" 0] ∧
    (catalog.filter fun t => !t.isIndex).length = 1 + 7 ∧
    (catalog.filter fun t => t.isIndex) =
      [.index orderTable "order_idx" "o_w_id" 1,
        .index "order_line" "order_line_stock_fk_idx" "ol_supply_w_id" 1,
        .index "customer" "customer_idx" "c_w_id" 1,
        .index "history" "history_customer_fk_idx" "h_c_w_id" 1,
        .index "history" "history_district_fk_idx" "h_w_id" 2] ∧
    ((catalog.filter fun t => t.isIndex).map Target.tableName).dedup =
      [orderTable, "order_line", "customer", "history"] ∧
    (((catalog.filter fun t => t.isIndex).map Target.tableName).dedup).length = 4 ∧
    (∀ table ∈ ((catalog.filter fun t => t.isIndex).map Target.tableName).dedup,
      table ≠ "warehouse" ∧
      (((catalog.filter fun t => t.isIndex).map Target.tableName).count table = 1 ∨
        ((catalog.filter fun t => t.isIndex).map Target.tableName).count table = 2)) ∧
    (∀ t ∈ catalog, (t.isIndex = false → t.disambiguator = 0) ∧
      (t.isIndex = true → t.disambiguator = 1 ∨ t.disambiguator = 2)) := by
  refine ⟨partitionTables_eq_catalog, by decide, by decide, by decide, by decide, by decide,
    by decide, by decide⟩

/-- C28: when the existence probe reports the index present, `partitionIndex`
is `partitionObject` with the object kind `INDEX`, the object name
`<table>@<index>`, the column, the underlying table and the disambiguator, run
after the probe: same statements, same order, same result.  Likewise
`partitionTable` is `partitionObject` with the kind `TABLE` and the table as
both object name and underlying table.  So the zone configuration of an index
pass is made on the table, not on the index. -/
theorem partitionIndex_as_partitionObject (db : DB) (tr : List Call) (p : partitioner)
    (zones : List String) (table index col : String) (idx : Int) :
    (db.scan tr indexExistsQuery [table, index] = .ok true →
      partitionIndex db tr p zones table index col idx =
        partitionObject db (tr ++ [Call.queryRow indexExistsQuery [table, index]]) p zones
          "INDEX" (table ++ "@" ++ index) col table idx) ∧
    partitionTable db tr p zones table col idx =
      partitionObject db tr p zones "TABLE" table col table idx ∧
    (∀ stmt, db.scan tr indexExistsQuery [table, index] = .ok true →
      rangeStatement p "INDEX" (table ++ "@" ++ index) col idx = .ok stmt →
      db.exec (tr ++ [Call.queryRow indexExistsQuery [table, index]]) stmt = none →
      partitionIndex db tr p zones table index col idx =
        zoneCallsInOrder db zones table
          ((List.range p.parts.toNat).map fun (i : Nat) => (partitionName idx i, (i : Int)))
          (tr ++ [Call.queryRow indexExistsQuery [table, index]] ++ [Call.exec stmt])) := by
  have h1 : db.scan tr indexExistsQuery [table, index] = .ok true →
      partitionIndex db tr p zones table index col idx =
        partitionObject db (tr ++ [Call.queryRow indexExistsQuery [table, index]]) p zones
          "INDEX" (table ++ "@" ++ index) col table idx := by
    intro hscan
    unfold partitionIndex
    rw [indexExists_eq, hscan]
  refine ⟨h1, rfl, ?_⟩
  intro stmt hscan hs hok
  rw [h1 hscan, partitionObject_stmt_ok db _ p zones _ _ col table idx stmt hs hok,
    configureZones_eq_calls, ← List.range_eq_range']
  rfl

theorem partitionIndex_as_partitionObject_witness :
    dbAllPresent.scan [] indexExistsQuery ["customer", "customer_idx"] = .ok true ∧
    partitionIndex dbAllPresent [] (closedForm 1 1 1) [] "customer" "customer_idx" "c_w_id" 1 =
      partitionObject dbAllPresent [Call.queryRow indexExistsQuery ["customer", "customer_idx"]]
        (closedForm 1 1 1) [] "INDEX" "customer@customer_idx" "c_w_id" "customer" 1 ∧
    partitionIndex dbAllPresent [] (closedForm 1 1 1) [] "customer" "customer_idx" "c_w_id" 1 =
      (.ok none,
        [Call.queryRow indexExistsQuery ["customer", "customer_idx"],
          Call.exec "ALTER INDEX customer@customer_idx PARTITION BY RANGE (c_w_id) (\n  PARTITION p1_0 VALUES FROM (0) to (1)\n)\n",
          Call.exec "ALTER PARTITION p1_0 OF TABLE customer CONFIGURE ZONE USING constraints = '[+rack=0]'"]) :=
  ⟨rfl,
    (partitionIndex_as_partitionObject dbAllPresent [] (closedForm 1 1 1) [] "customer"
      "customer_idx" "c_w_id" 1).1 rfl,
    by rfl⟩

/-! ## An executor on which everything succeeds -/

theorem replicateItemFrom_all_ok (db : DB) (hall : ∀ calls stmt, db.exec calls stmt = none)
    (i : Nat) (zones : List String) (tr : List Call) :
    replicateItemFrom db i zones tr =
      (.ok none, tr ++ (List.zip (List.range' i zones.length) zones).flatMap
        fun (iz : Nat × String) =>
          [Call.exec ("\n\t\t\tCREATE UNIQUE INDEX " ++ ("replicated_idx_" ++ toString iz.1) ++
              "\n\t\t\tON item (i_id)\n\t\t\tSTORING (i_im_id, i_name, i_price, i_data)"),
            Call.exec ("\n\t\t\tALTER INDEX item@" ++ ("replicated_idx_" ++ toString iz.1) ++
              "\n\t\t\tCONFIGURE ZONE USING lease_preferences = '[[+zone=" ++ iz.2 ++ "]]'")]) := by
  induction zones generalizing i tr with
  | nil => simp [replicateItemFrom]
  | cons zone rest ih =>
    simp only [replicateItemFrom, hall, List.length_cons, List.range'_succ, List.zip_cons_cons,
      List.flatMap_cons]
    rw [ih]
    simp

theorem replicateItem_all_ok (db : DB) (hall : ∀ calls stmt, db.exec calls stmt = none)
    (zones : List String) (tr : List Call) :
    replicateItem db tr zones = (.ok none, tr ++ replicationCalls zones) := by
  unfold replicateItem replicationCalls
  rw [replicateItemFrom_all_ok db hall, List.range_eq_range']

theorem length_replicationCalls (zones : List String) :
    (replicationCalls zones).length = 2 * zones.length := by
  unfold replicationCalls
  have hlen : ∀ (l : List Nat) (z : List String), l.length = z.length →
      ((List.zip l z).flatMap fun (iz : Nat × String) =>
        [Call.exec ("\n\t\t\tCREATE UNIQUE INDEX " ++ ("replicated_idx_" ++ toString iz.1) ++
            "\n\t\t\tON item (i_id)\n\t\t\tSTORING (i_im_id, i_name, i_price, i_data)"),
          Call.exec ("\n\t\t\tALTER INDEX item@" ++ ("replicated_idx_" ++ toString iz.1) ++
            "\n\t\t\tCONFIGURE ZONE USING lease_preferences = '[[+zone=" ++ iz.2 ++
              "]]'")]).length = 2 * z.length := by
    intro l z
    induction l generalizing z with
    | nil =>
      intro h
      cases z with
      | nil => rfl
      | cons _ _ => simp at h
    | cons a l ih =>
      intro h
      cases z with
      | nil => simp at h
      | cons b z =>
        simp only [List.zip_cons_cons, List.flatMap_cons, List.length_append, List.length_cons,
          List.length_nil]
        rw [ih z (by simpa using h)]
        omega
  exact hlen (List.range zones.length) zones (by simp)

theorem partitionObject_all_ok (db : DB) (hall : ∀ calls stmt, db.exec calls stmt = none)
    (tr : List Call) (p : partitioner) (zones : List String) (obj name col table : String)
    (idx : Int) (cs : Nat → String)
    (hlen : p.parts.toNat + 1 ≤ p.partBounds.length)
    (hcs : ∀ i : Nat, i < p.parts.toNat → zoneConstraints (i : Int) zones = .ok (cs i)) :
    partitionObject db tr p zones obj name col table idx =
      (.ok none, tr ++ Call.exec (rangeStatementText p obj name col idx) ::
        zoneStatements p table idx cs) := by
  have hs := rangeStatement_eq p obj name col idx hlen
  rw [partitionObject_stmt_ok db tr p zones obj name col table idx _ hs (hall _ _),
    configureZones_eq_calls, ← List.range_eq_range',
    zoneCallsInOrder_all_ok db zones table hall _ (fun c => cs c.2.toNat)]
  · simp [List.map_map, Function.comp_def, zoneStatements, rangeStatementText, partitionName]
  · intro c hc
    simp only [List.mem_map, List.mem_range] at hc
    obtain ⟨i, hi, rfl⟩ := hc
    simpa using hcs i hi

theorem target_run_all_ok (db : DB) (hall : ∀ calls stmt, db.exec calls stmt = none)
    (hscan : ∀ calls sql args, db.scan calls sql args = .ok true)
    (tr : List Call) (p : partitioner) (zones : List String) (cs : Nat → String)
    (hlen : p.parts.toNat + 1 ≤ p.partBounds.length)
    (hcs : ∀ i : Nat, i < p.parts.toNat → zoneConstraints (i : Int) zones = .ok (cs i))
    (target : Target) :
    target.run db tr p zones = (.ok none, tr ++ targetCalls p cs target) := by
  cases target with
  | table t col idx =>
    simp only [Target.run, partitionTable, targetCalls]
    exact partitionObject_all_ok db hall tr p zones _ _ col t idx cs hlen hcs
  | index t i col idx =>
    simp only [Target.run, targetCalls]
    unfold partitionIndex
    rw [indexExists_eq, hscan]
    simp only
    rw [partitionObject_all_ok db hall _ p zones _ _ col t idx cs hlen hcs]
    simp

theorem runTargets_all_ok (db : DB) (hall : ∀ calls stmt, db.exec calls stmt = none)
    (hscan : ∀ calls sql args, db.scan calls sql args = .ok true)
    (p : partitioner) (zones : List String) (cs : Nat → String)
    (hlen : p.parts.toNat + 1 ≤ p.partBounds.length)
    (hcs : ∀ i : Nat, i < p.parts.toNat → zoneConstraints (i : Int) zones = .ok (cs i))
    (targets : List Target) (tr : List Call) :
    runTargets db p zones targets tr =
      (.ok none, tr ++ targets.flatMap (targetCalls p cs)) := by
  induction targets generalizing tr with
  | nil => simp [runTargets]
  | cons target rest ih =>
    simp only [runTargets]
    rw [target_run_all_ok db hall hscan tr p zones cs hlen hcs target, andThen_nil, ih]
    simp

/-! ## Failures and what follows them -/

theorem failuresRecovered_nil (db : DB) (tr : List Call) : FailuresRecovered db tr [] := by
  intro pre call post h
  simp at h

theorem failuresRecovered_single (db : DB) (tr : List Call) (call : Call) :
    FailuresRecovered db tr [call] := by
  intro pre call' post h hpost
  cases pre with
  | nil =>
    simp only [List.nil_append, List.cons.injEq] at h
    exact absurd h.2.symm hpost
  | cons x pre =>
    simp only [List.cons_append, List.cons.injEq] at h
    have := congrArg List.length h.2
    simp at this
    omega

theorem abortsAtFirstFailure_nil (db : DB) (tr : List Call) :
    AbortsAtFirstFailure db tr (.ok none, tr) := by
  refine ⟨[], by simp, failuresRecovered_nil db tr, ?_, ?_⟩
  · intro err h
    cases h
  · intro pre call h
    simp at h

theorem abortsAtFirstFailure_panic (db : DB) (tr : List Call) (f : Failure) :
    AbortsAtFirstFailure db tr (.error f, tr) := by
  refine ⟨[], by simp, failuresRecovered_nil db tr, ?_, ?_⟩
  · intro err h
    cases h
  · intro pre call h
    simp at h

theorem abortsAtFirstFailure_seq (db : DB) (tr tr1 : List Call) (o : Outcome)
    (h1 : AbortsAtFirstFailure db tr (.ok none, tr1)) (h2 : AbortsAtFirstFailure db tr1 o) :
    AbortsAtFirstFailure db tr o := by
  obtain ⟨new1, e1, fr1, -, last1⟩ := h1
  obtain ⟨new2, e2, fr2, err2, last2⟩ := h2
  simp only at e1
  subst e1
  have lastOk : ∀ pre call, new1 = pre ++ [call] → callError db (tr ++ pre) call = none := by
    intro pre call hnew
    by_contra hne
    obtain ⟨err, herr⟩ := last1 pre call hnew hne
    cases herr
  refine ⟨new1 ++ new2, by rw [e2, List.append_assoc], ?_, ?_, ?_⟩
  · intro pre call post h hpost
    rcases List.append_eq_append_iff.mp h with ⟨a', rfl, ha⟩ | ⟨c', rfl, hc⟩
    · rw [← List.append_assoc]
      exact fr2 a' call post ha hpost
    · cases c' with
      | nil =>
        simp only [List.nil_append] at hc
        have := fr2 [] call post hc.symm hpost
        simpa using this
      | cons x c' =>
        simp only [List.cons_append, List.cons.injEq] at hc
        obtain ⟨rfl, rfl⟩ := hc
        cases c' with
        | nil => exact Or.inl (lastOk pre call rfl)
        | cons y c' =>
          rcases fr1 pre call (y :: c') rfl (by simp) with h | ⟨pa, ta, c, msg, hcall, hx, hs, post', hp⟩
          · exact Or.inl h
          · refine Or.inr ⟨pa, ta, c, msg, hcall, hx, hs, post' ++ new2, ?_⟩
            rw [hp]
            simp
  · intro err herr
    obtain ⟨pre, call, e, hnew, hce, hwrap⟩ := err2 err herr
    refine ⟨new1 ++ pre, call, e, by rw [hnew, List.append_assoc], ?_, hwrap⟩
    rw [← List.append_assoc]
    exact hce
  · intro pre call hnew hne
    rcases List.eq_nil_or_concat new2 with rfl | ⟨l, b, rfl⟩
    · rw [List.append_nil] at hnew
      exact absurd (lastOk pre call hnew) hne
    · rw [List.concat_eq_append, ← List.append_assoc] at hnew
      obtain ⟨hl, hb⟩ := List.append_inj' hnew rfl
      simp only [List.cons.injEq, and_true] at hb
      subst hb
      subst hl
      apply last2 l b (by rw [List.concat_eq_append])
      rw [← List.append_assoc] at hne
      exact hne

theorem abortsAtFirstFailure_call (db : DB) (tr : List Call) (call : Call)
    (r : Except Failure (Option GoError))
    (herr : ∀ err, r = .ok (some err) → ∃ e, callError db tr call = some e ∧
      (err = e ∨ ∃ stmt, call = Call.exec stmt ∧ err = .couldntExec e stmt))
    (hlast : callError db tr call ≠ none → ∃ err, r = .ok (some err)) :
    AbortsAtFirstFailure db tr (r, tr ++ [call]) := by
  refine ⟨[call], rfl, failuresRecovered_single db tr call, ?_, ?_⟩
  · intro err h
    obtain ⟨e, he, hw⟩ := herr err h
    exact ⟨[], call, e, rfl, by simpa using he, hw⟩
  · intro pre call' hnew hne
    cases pre with
    | nil =>
      simp only [List.nil_append, List.cons.injEq, and_true] at hnew
      subst hnew
      exact hlast (by simpa using hne)
    | cons x pre =>
      simp only [List.cons_append, List.cons.injEq] at hnew
      have := congrArg List.length hnew.2
      simp at this

theorem abortsAtFirstFailure_exec_ok (db : DB) (tr : List Call) (stmt : String)
    (h : db.exec tr stmt = none) :
    AbortsAtFirstFailure db tr (.ok none, tr ++ [Call.exec stmt]) := by
  apply abortsAtFirstFailure_call
  · intro err herr
    cases herr
  · intro hne
    simp [callError, h] at hne

theorem abortsAtFirstFailure_exec_fail (db : DB) (tr : List Call) (stmt msg : String)
    (h : db.exec tr stmt = some msg) :
    AbortsAtFirstFailure db tr
      (.ok (some (.couldntExec (.driver msg) stmt)), tr ++ [Call.exec stmt]) := by
  apply abortsAtFirstFailure_call
  · intro err herr
    simp only [Except.ok.injEq, Option.some.injEq] at herr
    subst herr
    exact ⟨.driver msg, by simp [callError, h], Or.inr ⟨stmt, rfl, rfl⟩⟩
  · intro _
    exact ⟨_, rfl⟩

theorem abortsAtFirstFailure_probe_ok (db : DB) (tr : List Call) (sql : String)
    (args : List String) (found : Bool) (h : db.scan tr sql args = .ok found) :
    AbortsAtFirstFailure db tr (.ok none, tr ++ [Call.queryRow sql args]) := by
  apply abortsAtFirstFailure_call
  · intro err herr
    cases herr
  · intro hne
    simp [callError, h] at hne

theorem abortsAtFirstFailure_probe_fail (db : DB) (tr : List Call) (sql : String)
    (args : List String) (msg : String) (h : db.scan tr sql args = .error msg) :
    AbortsAtFirstFailure db tr (.ok (some (.driver msg)), tr ++ [Call.queryRow sql args]) := by
  apply abortsAtFirstFailure_call
  · intro err herr
    simp only [Except.ok.injEq, Option.some.injEq] at herr
    subst herr
    exact ⟨.driver msg, by simp [callError, h], Or.inl rfl⟩
  · intro _
    exact ⟨_, rfl⟩

theorem abortsAtFirstFailure_andThen (db : DB) (tr : List Call) (o : Outcome)
    (rest : List Call → Outcome) (h1 : AbortsAtFirstFailure db tr o)
    (h2 : ∀ tr1, o = (.ok none, tr1) → AbortsAtFirstFailure db tr1 (rest tr1)) :
    AbortsAtFirstFailure db tr (andThen o rest) := by
  rcases o with ⟨r, tr1⟩
  rcases r with f | ret
  · exact h1
  · cases ret with
    | none => exact abortsAtFirstFailure_seq db tr tr1 _ h1 (h2 tr1 rfl)
    | some err => exact h1

theorem abortsAtFirstFailure_fallback (db : DB) (tr : List Call)
    (partition table c msg : String) (r : Except Failure (Option GoError))
    (h1 : db.exec tr (modernZoneStatement partition table c) = some msg)
    (h2 : stringsContains msg "syntax error" = true)
    (herr : ∀ err, r = .ok (some err) →
      ∃ e, callError db (tr ++ [Call.exec (modernZoneStatement partition table c)])
          (Call.exec (legacyZoneStatement partition table c)) = some e ∧
        err = .couldntExec e (legacyZoneStatement partition table c))
    (hlast : callError db (tr ++ [Call.exec (modernZoneStatement partition table c)])
        (Call.exec (legacyZoneStatement partition table c)) ≠ none →
      ∃ err, r = .ok (some err)) :
    AbortsAtFirstFailure db tr
      (r, tr ++ [Call.exec (modernZoneStatement partition table c),
        Call.exec (legacyZoneStatement partition table c)]) := by
  refine ⟨[_, _], rfl, ?_, ?_, ?_⟩
  · intro pre call post h hpost
    cases pre with
    | nil =>
      simp only [List.nil_append, List.cons.injEq] at h
      obtain ⟨rfl, rfl⟩ := h
      exact Or.inr ⟨partition, table, c, msg, rfl, by simpa using h1, h2, [], rfl⟩
    | cons x pre =>
      simp only [List.cons_append, List.cons.injEq] at h
      obtain ⟨-, h⟩ := h
      cases pre with
      | nil =>
        simp only [List.nil_append, List.cons.injEq] at h
        exact absurd h.2.symm hpost
      | cons y pre =>
        simp only [List.cons_append, List.cons.injEq] at h
        have := congrArg List.length h.2
        simp at this
        omega
  · intro err h
    obtain ⟨e, he, hw⟩ := herr err h
    exact ⟨[_], _, e, rfl, he, Or.inr ⟨_, rfl, hw⟩⟩
  · intro pre call hnew hne
    cases pre with
    | nil =>
      have := congrArg List.length hnew
      simp at this
    | cons x pre =>
      simp only [List.cons_append, List.cons.injEq] at hnew
      obtain ⟨rfl, hnew⟩ := hnew
      cases pre with
      | nil =>
        simp only [List.nil_append, List.cons.injEq, and_true] at hnew
        subst hnew
        exact hlast hne
      | cons y pre =>
        simp only [List.cons_append, List.cons.injEq] at hnew
        have := congrArg List.length hnew.2
        simp at this

theorem configureZone_aborts (db : DB) (tr : List Call) (table partition : String)
    (constraint : Int) (zones : List String) :
    AbortsAtFirstFailure db tr (configureZone db tr table partition constraint zones) := by
  rcases configureZone_cases db tr table partition constraint zones with
    ⟨f, _, h⟩ | ⟨c, _, ⟨h1, h⟩ | ⟨msg, h1, _, h⟩ | ⟨msg, h1, h2, h3, h⟩ |
      ⟨msg, msg2, h1, h2, h3, h⟩⟩
  · rw [h]
    exact abortsAtFirstFailure_panic db tr f
  · rw [h]
    exact abortsAtFirstFailure_exec_ok db tr _ h1
  · rw [h]
    exact abortsAtFirstFailure_exec_fail db tr _ msg h1
  · rw [h]
    apply abortsAtFirstFailure_fallback db tr partition table c msg _ h1 h2
    · intro err herr
      cases herr
    · intro hne
      simp [callError, h3] at hne
  · rw [h]
    apply abortsAtFirstFailure_fallback db tr partition table c msg _ h1 h2
    · intro err herr
      simp only [Except.ok.injEq, Option.some.injEq] at herr
      subst herr
      exact ⟨.driver msg2, by simp [callError, h3], rfl⟩
    · intro _
      exact ⟨_, rfl⟩

theorem zoneCallsInOrder_aborts (db : DB) (zones : List String) (table : String)
    (calls : List (String × Int)) (tr : List Call) :
    AbortsAtFirstFailure db tr (zoneCallsInOrder db zones table calls tr) := by
  induction calls generalizing tr with
  | nil => exact abortsAtFirstFailure_nil db tr
  | cons c rest ih =>
    obtain ⟨partition, constraint⟩ := c
    have hcz := configureZone_aborts db tr table partition constraint zones
    simp only [zoneCallsInOrder]
    rcases hx : configureZone db tr table partition constraint zones with ⟨r, tr1⟩
    rw [hx] at hcz
    rcases r with f | ret
    · exact hcz
    · cases ret with
      | none => exact abortsAtFirstFailure_seq db tr tr1 _ hcz (ih tr1)
      | some err => exact hcz

theorem partitionObject_aborts (db : DB) (tr : List Call) (p : partitioner)
    (zones : List String) (obj name col table : String) (idx : Int) :
    AbortsAtFirstFailure db tr (partitionObject db tr p zones obj name col table idx) := by
  cases hs : rangeStatement p obj name col idx with
  | error f =>
    rw [partitionObject_panic db tr p zones obj name col table idx f hs]
    exact abortsAtFirstFailure_panic db tr f
  | ok stmt =>
    cases hx : db.exec tr stmt with
    | some msg =>
      rw [partitionObject_stmt_fail db tr p zones obj name col table idx stmt msg hs hx]
      exact abortsAtFirstFailure_exec_fail db tr stmt msg hx
    | none =>
      rw [partitionObject_stmt_ok db tr p zones obj name col table idx stmt hs hx,
        configureZones_eq_calls]
      exact abortsAtFirstFailure_seq db tr _ _ (abortsAtFirstFailure_exec_ok db tr stmt hx)
        (zoneCallsInOrder_aborts db zones table _ _)

theorem partitionIndex_aborts (db : DB) (tr : List Call) (p : partitioner)
    (zones : List String) (table index col : String) (idx : Int) :
    AbortsAtFirstFailure db tr (partitionIndex db tr p zones table index col idx) := by
  unfold partitionIndex
  rw [indexExists_eq]
  cases hscan : db.scan tr indexExistsQuery [table, index] with
  | error msg => exact abortsAtFirstFailure_probe_fail db tr _ _ msg hscan
  | ok found =>
    cases found with
    | false => exact abortsAtFirstFailure_probe_ok db tr _ _ false hscan
    | true =>
      exact abortsAtFirstFailure_seq db tr _ _
        (abortsAtFirstFailure_probe_ok db tr _ _ true hscan)
        (partitionObject_aborts db _ p zones _ _ col table idx)

theorem runTargets_aborts (db : DB) (p : partitioner) (zones : List String)
    (targets : List Target) (tr : List Call) :
    AbortsAtFirstFailure db tr (runTargets db p zones targets tr) := by
  induction targets generalizing tr with
  | nil => exact abortsAtFirstFailure_nil db tr
  | cons target rest ih =>
    simp only [runTargets]
    apply abortsAtFirstFailure_andThen
    · cases target with
      | table t col idx => exact partitionObject_aborts db tr p zones _ _ col t idx
      | index t i col idx => exact partitionIndex_aborts db tr p zones t i col idx
    · intro tr1 _
      exact ih tr1

theorem replicateItemFrom_aborts (db : DB) (i : Nat) (zones : List String) (tr : List Call) :
    AbortsAtFirstFailure db tr (replicateItemFrom db i zones tr) := by
  induction zones generalizing i tr with
  | nil => exact abortsAtFirstFailure_nil db tr
  | cons zone rest ih =>
    simp only [replicateItemFrom]
    split
    · rename_i msg hx
      exact abortsAtFirstFailure_exec_fail db tr _ msg hx
    · rename_i hx
      refine abortsAtFirstFailure_seq db tr _ _ (abortsAtFirstFailure_exec_ok db tr _ hx) ?_
      split
      · rename_i msg hx2
        have := abortsAtFirstFailure_exec_fail db _ _ msg hx2
        simpa using this
      · rename_i hx2
        have h2 := abortsAtFirstFailure_exec_ok db _ _ hx2
        refine abortsAtFirstFailure_seq db _ _ _ h2 ?_
        have := ih (i + 1) (tr ++ [Call.exec ("\n\t\t\tCREATE UNIQUE INDEX " ++
            ("replicated_idx_" ++ toString i) ++
            "\n\t\t\tON item (i_id)\n\t\t\tSTORING (i_im_id, i_name, i_price, i_data)"),
          Call.exec ("\n\t\t\tALTER INDEX item@" ++ ("replicated_idx_" ++ toString i) ++
            "\n\t\t\tCONFIGURE ZONE USING lease_preferences = '[[+zone=" ++ zone ++ "]]'")])
        simpa using this

theorem aborts_partitionTables (db : DB) (tr : List Call) (p : partitioner)
    (zones : List String) :
    AbortsAtFirstFailure db tr (partitionTables db tr p zones) := by
  rw [partitionTables_eq_catalog]
  apply abortsAtFirstFailure_andThen
  · exact runTargets_aborts db p zones catalog tr
  · intro tr1 _
    exact replicateItemFrom_aborts db 0 zones tr1

theorem replicateItemFrom_new_calls (db : DB) (i : Nat) (zones : List String) (tr : List Call) :
    ∃ new, (replicateItemFrom db i zones tr).2 = tr ++ new ∧
      ∀ call ∈ new, ∃ stmt, call = Call.exec stmt ∧ stmt.data.head? = some (Char.ofNat 10) := by
  induction zones generalizing i tr with
  | nil => exact ⟨[], by simp [replicateItemFrom], by simp⟩
  | cons zone rest ih =>
    simp only [replicateItemFrom]
    split
    · refine ⟨[_], rfl, ?_⟩
      intro call hc
      rw [List.mem_singleton] at hc
      exact ⟨_, hc, by rfl⟩
    · split
      · refine ⟨[_, _], rfl, ?_⟩
        intro call hc
        simp only [List.mem_cons, List.mem_singleton, List.not_mem_nil, or_false] at hc
        rcases hc with hc | hc
        · exact ⟨_, hc, by rfl⟩
        · exact ⟨_, hc, by rfl⟩
      · obtain ⟨new, hnew, hall⟩ := ih (i + 1) (tr ++ [Call.exec ("\n\t\t\tCREATE UNIQUE INDEX " ++
            ("replicated_idx_" ++ toString i) ++
            "\n\t\t\tON item (i_id)\n\t\t\tSTORING (i_im_id, i_name, i_price, i_data)"),
          Call.exec ("\n\t\t\tALTER INDEX item@" ++ ("replicated_idx_" ++ toString i) ++
            "\n\t\t\tCONFIGURE ZONE USING lease_preferences = '[[+zone=" ++ zone ++ "]]'")])
        refine ⟨[Call.exec _, Call.exec _] ++ new,
          by rw [hnew]; exact List.append_assoc _ _ _, ?_⟩
        intro call hc
        simp only [List.cons_append, List.nil_append, List.mem_cons] at hc
        rcases hc with hc | hc | hc
        · exact ⟨_, hc, by rfl⟩
        · exact ⟨_, hc, by rfl⟩
        · exact hall call hc

theorem modernZoneStatement_head (partition table c : String) :
    (modernZoneStatement partition table c).data.head? = some 'A' := by
  rfl

theorem replicateItem_no_recovery (db : DB) (tr : List Call) (zones : List String) :
    ∃ new, (replicateItem db tr zones).2 = tr ++ new ∧
      (∀ (pre : List Call) (call : Call) (post : List Call), new = pre ++ call :: post →
        post ≠ [] → callError db (tr ++ pre) call = none) ∧
      (∀ err, (replicateItem db tr zones).1 = .ok (some err) →
        ∃ (pre : List Call) (stmt msg : String), new = pre ++ [Call.exec stmt] ∧
          db.exec (tr ++ pre) stmt = some msg ∧ err = .couldntExec (.driver msg) stmt) ∧
      (∀ (pre : List Call) (call : Call), new = pre ++ [call] →
        callError db (tr ++ pre) call ≠ none →
        ∃ err, (replicateItem db tr zones).1 = .ok (some err)) := by
  obtain ⟨new, hnew, fr, herr, hlast⟩ := replicateItemFrom_aborts db 0 zones tr
  obtain ⟨new', hnew', hcalls⟩ := replicateItemFrom_new_calls db 0 zones tr
  have hnn : new' = new := List.append_cancel_left (hnew'.symm.trans hnew)
  subst hnn
  refine ⟨new', hnew, ?_, ?_, hlast⟩
  · intro pre call post h hpost
    rcases fr pre call post h hpost with hok | ⟨pa, ta, c, msg, hcall, -, -, -⟩
    · exact hok
    · exfalso
      obtain ⟨stmt, hs, hhead⟩ := hcalls call (by rw [h]; simp)
      rw [hcall] at hs
      simp only [Call.exec.injEq] at hs
      rw [← hs, modernZoneStatement_head] at hhead
      simp only [Option.some.injEq] at hhead
      exact absurd hhead (by decide)
  · intro err he
    obtain ⟨pre, call, e, hp, hce, hw⟩ := herr err he
    obtain ⟨stmt, hs, -⟩ := hcalls call (by rw [hp]; simp)
    subst hs
    simp only [callError, Option.map_eq_some'] at hce
    obtain ⟨msg, hmsg, rfl⟩ := hce
    refine ⟨pre, stmt, msg, hp, hmsg, ?_⟩
    rcases hw with hw | ⟨stmt', hst, hw⟩
    · exfalso
      obtain ⟨pre', stmt', msg', -, -, h3⟩ := replicateItemFrom_reports db 0 zones tr _ err
        (Prod.ext he rfl)
      rw [hw] at h3
      cases h3
    · simp only [Call.exec.injEq] at hst
      rw [hw, hst]

/-! ## The claims on the orchestrator: order and failures -/

/-- C23: `partitionTables` aborts on the first failure that is not recovered,
whatever the executor and the probe do.  Among the calls it makes, a call
followed by another one either succeeded or is a zone statement whose syntax
error is recovered by its legacy form; a returned error is the error of the
last call made (a failed statement, wrapped with its text, or a failed probe),
so nothing is executed after the failing step; and `nil` is returned only if
every call succeeded or was recovered. -/
theorem partitionTables_aborts (db : DB) (tr : List Call) (p : partitioner)
    (zones : List String) :
    AbortsAtFirstFailure db tr (partitionTables db tr p zones) ∧
    (∀ (err : GoError) (tr' : List Call),
      partitionTables db tr p zones = (.ok (some err), tr') →
      ∃ (pre : List Call) (call : Call) (e : GoError),
        tr' = tr ++ pre ++ [call] ∧ callError db (tr ++ pre) call = some e ∧
        (err = e ∨ ∃ stmt, call = Call.exec stmt ∧ err = .couldntExec e stmt)) ∧
    (∀ new : List Call, partitionTables db tr p zones = (.ok none, tr ++ new) →
      ∀ (pre : List Call) (call : Call) (post : List Call), new = pre ++ call :: post →
        callError db (tr ++ pre) call = none ∨
        ∃ (partition table c msg : String),
          call = Call.exec (modernZoneStatement partition table c) ∧
          db.exec (tr ++ pre) (modernZoneStatement partition table c) = some msg ∧
          stringsContains msg "syntax error" = true ∧
          ∃ post', post = Call.exec (legacyZoneStatement partition table c) :: post') := by
  have h := aborts_partitionTables db tr p zones
  refine ⟨h, ?_, ?_⟩
  · intro err tr' hres
    obtain ⟨new, hnew, -, herr, -⟩ := h
    rw [hres] at hnew herr
    obtain ⟨pre, call, e, hp, hce, hw⟩ := herr err rfl
    refine ⟨pre, call, e, ?_, hce, hw⟩
    simp only at hnew
    rw [hnew, hp, List.append_assoc]
  · intro new hres pre call post hsplit
    obtain ⟨new', hnew, fr, -, hlast⟩ := h
    rw [hres] at hnew hlast
    have hnn : new = new' := List.append_cancel_left hnew
    subst hnn
    by_cases hpost : post = []
    · subst hpost
      left
      by_contra hne
      obtain ⟨err, herr⟩ := hlast pre call hsplit hne
      cases herr
    · exact fr pre call post hsplit hpost

/-- C24: on an executor that accepts every statement, `replicateItem` executes
exactly `2 * len(zones)` statements: for every zone in order the creation of
the index `replicated_idx_<i>` and then its zone configuration, each equal to
the template of the design document when white space is disregarded; with no
zones it executes nothing and returns `nil`; the index names are pairwise
distinct; and whatever the executor does, it stops at the first failing
statement and returns its error. -/
theorem replicateItem_statements :
    (∀ (db : DB) (tr : List Call) (zones : List String),
      (∀ calls stmt, db.exec calls stmt = none) →
      replicateItem db tr zones = (.ok none, tr ++ replicationCalls zones)) ∧
    (∀ zones : List String,
      replicationCalls zones =
        (List.zip (List.range zones.length) zones).flatMap fun (iz : Nat × String) =>
          [Call.exec ("\n\t\t\tCREATE UNIQUE INDEX " ++ ("replicated_idx_" ++ toString iz.1) ++
              "\n\t\t\tON item (i_id)\n\t\t\tSTORING (i_im_id, i_name, i_price, i_data)"),
            Call.exec ("\n\t\t\tALTER INDEX item@" ++ ("replicated_idx_" ++ toString iz.1) ++
              "\n\t\t\tCONFIGURE ZONE USING lease_preferences = '[[+zone=" ++ iz.2 ++ "]]'")]) ∧
    (∀ zones : List String, (replicationCalls zones).length = 2 * zones.length) ∧
    (∀ (i : Nat) (zone : String),
      withoutWhitespace ("\n\t\t\tCREATE UNIQUE INDEX " ++ ("replicated_idx_" ++ toString i) ++
          "\n\t\t\tON item (i_id)\n\t\t\tSTORING (i_im_id, i_name, i_price, i_data)") =
        withoutWhitespace ("CREATE UNIQUE INDEX replicated_idx_" ++ toString i ++
          " ON item (i_id) STORING (i_im_id, i_name, i_price, i_data)") ∧
      withoutWhitespace ("\n\t\t\tALTER INDEX item@" ++ ("replicated_idx_" ++ toString i) ++
          "\n\t\t\tCONFIGURE ZONE USING lease_preferences = '[[+zone=" ++ zone ++ "]]'") =
        withoutWhitespace ("ALTER INDEX item@replicated_idx_" ++ toString i ++
          " CONFIGURE ZONE USING lease_preferences = '[[+zone=" ++ zone ++ "]]'")) ∧
    (∀ (db : DB) (tr : List Call), replicateItem db tr [] = (.ok none, tr)) ∧
    (∀ i j : Nat, "replicated_idx_" ++ toString i = "replicated_idx_" ++ toString j → i = j) ∧
    (∀ (db : DB) (tr : List Call) (zones : List String),
      ∃ new, (replicateItem db tr zones).2 = tr ++ new ∧
        (∀ (pre : List Call) (call : Call) (post : List Call), new = pre ++ call :: post →
          post ≠ [] → callError db (tr ++ pre) call = none) ∧
        (∀ err, (replicateItem db tr zones).1 = .ok (some err) →
          ∃ (pre : List Call) (stmt msg : String), new = pre ++ [Call.exec stmt] ∧
            db.exec (tr ++ pre) stmt = some msg ∧ err = .couldntExec (.driver msg) stmt) ∧
        (∀ (pre : List Call) (call : Call), new = pre ++ [call] →
          callError db (tr ++ pre) call ≠ none →
          ∃ err, (replicateItem db tr zones).1 = .ok (some err))) := by
  refine ⟨fun db tr zones hall => replicateItem_all_ok db hall zones tr, fun _ => rfl,
    length_replicationCalls, ?_, fun _ _ => rfl, replicatedName_injective,
    replicateItem_no_recovery⟩
  intro i zone
  constructor
  · simp only [withoutWhitespace, String.toList, String.data_append, List.filter_append]
    congr 1
  · simp only [withoutWhitespace, String.toList, String.data_append, List.filter_append]
    congr 1

theorem catalog_table_before_index :
    ∀ k : Fin catalog.length, (catalog.get k).isIndex = true →
      ∃ j : Fin catalog.length, j < k ∧ (catalog.get j).isIndex = false ∧
        (catalog.get j).tableName = (catalog.get k).tableName := by
  decide

theorem andThen_of_not_nil (o : Outcome) (rest : List Call → Outcome) (h : o.1 ≠ .ok none) :
    andThen o rest = o := by
  rcases o with ⟨r, tr⟩
  rcases r with f | ret
  · rfl
  · cases ret with
    | none => exact absurd rfl h
    | some err => rfl

/-- C25: `partitionTables` processes the targets in the fixed order
`warehouse`, `district`, `new_order`, `"order"` then its index `order_idx`,
`order_line` then `order_line_stock_fk_idx`, `stock`, `customer` then
`customer_idx`, `history` then `history_customer_fk_idx` and
`history_district_fk_idx`, each with its own column; every table is
partitioned before its indexes; the replication of `item` runs only after all
of these returned `nil`.  On an executor and a probe that always succeed, with
every index present, the calls on the handle are those of the targets in this
order followed by those of the replication. -/
theorem partitionTables_order :
    catalog =
      [.table "warehouse" "w_id" 0,
        .table "district" "d_w_id" 0,
        .table "new_order" "no_w_id" 0,
        .table orderTable "o_w_id" 0,
        .index orderTable "order_idx" "o_w_id" 1,
        .table "order_line" "ol_w_id" 0,
        .index "order_line" "order_line_stock_fk_idx" "ol_supply_w_id" 1,
        .table "stock" "s_w_id" 0,
        .table "customer" "c_w_id" 0,
        .index "customer" "customer_idx" "c_w_id" 1,
        .table "history" "h_w_id" 0,
        .index "history" "history_customer_fk_idx" "h_c_w_id" 1,
        .index "history" "history_district_fk_idx" "h_w_id" 2] ∧
    (∀ (db : DB) (tr : List Call) (p : partitioner) (zones : List String),
      partitionTables db tr p zones =
        andThen (runTargets db p zones catalog tr) (fun tr => replicateItem db tr zones)) ∧
    (∀ (db : DB) (tr : List Call) (p : partitioner) (zones : List String),
      (runTargets db p zones catalog tr).1 ≠ .ok none →
      partitionTables db tr p zones = runTargets db p zones catalog tr) ∧
    (∀ k : Fin catalog.length, (catalog.get k).isIndex = true →
      ∃ j : Fin catalog.length, j < k ∧ (catalog.get j).isIndex = false ∧
        (catalog.get j).tableName = (catalog.get k).tableName) ∧
    (∀ (total active parts : Int) (p : partitioner) (db : DB) (tr : List Call)
      (zones : List String) (cs : Nat → String),
      makePartitioner total active parts = .ok p →
      (∀ calls stmt, db.exec calls stmt = none) →
      (∀ calls sql args, db.scan calls sql args = .ok true) →
      (∀ i : Nat, i < p.parts.toNat → zoneConstraints (i : Int) zones = .ok (cs i)) →
      partitionTables db tr p zones =
        (.ok none, tr ++ catalog.flatMap (targetCalls p cs) ++ replicationCalls zones)) := by
  refine ⟨rfl, partitionTables_eq_catalog, ?_, catalog_table_before_index, ?_⟩
  · intro db tr p zones h
    rw [partitionTables_eq_catalog, andThen_of_not_nil _ _ h]
  · intro total active parts p db tr zones cs hp hall hscan hcs
    have hlen : p.parts.toNat + 1 ≤ p.partBounds.length :=
      le_of_eq (makePartitioner_bounds_length total active parts p hp).symm
    rw [partitionTables_eq_catalog,
      runTargets_all_ok db hall hscan p zones cs hlen hcs catalog tr, andThen_nil,
      replicateItem_all_ok db hall]

theorem partitionTables_order_witness :
    makePartitioner 20 10 3 = .ok (closedForm 20 10 3) ∧
    partitionTables dbAllPresent [] (closedForm 20 10 3) [] =
      (.ok none,
        [] ++ catalog.flatMap (targetCalls (closedForm 20 10 3)
          fun i => "[+rack=" ++ toString (i : Int) ++ "]") ++ replicationCalls []) ∧
    (targetCalls (closedForm 20 10 3) (fun i => "[+rack=" ++ toString (i : Int) ++ "]")
        (.index "customer" "customer_idx" "c_w_id" 1)) =
      [Call.queryRow indexExistsQuery ["customer", "customer_idx"],
        Call.exec "ALTER INDEX customer@customer_idx PARTITION BY RANGE (c_w_id) (\n  PARTITION p1_0 VALUES FROM (0) to (6),\n  PARTITION p1_1 VALUES FROM (6) to (13),\n  PARTITION p1_2 VALUES FROM (13) to (20)\n)\n",
        Call.exec "ALTER PARTITION p1_0 OF TABLE customer CONFIGURE ZONE USING constraints = '[+rack=0]'",
        Call.exec "ALTER PARTITION p1_1 OF TABLE customer CONFIGURE ZONE USING constraints = '[+rack=1]'",
        Call.exec "ALTER PARTITION p1_2 OF TABLE customer CONFIGURE ZONE USING constraints = '[+rack=2]'"] :=
  ⟨by rfl,
    partitionTables_order.2.2.2.2 20 10 3 (closedForm 20 10 3) dbAllPresent [] []
      (fun i => "[+rack=" ++ toString (i : Int) ++ "]") (by rfl) (fun _ _ => rfl)
      (fun _ _ _ => rfl) (fun i _ => zoneConstraints_rack (i : Int)),
    by rfl⟩

/-! ## The reverse map: the last writer wins -/

theorem boundAt_nonneg (total parts : Int) (ht : 0 ≤ total) (hp : 0 < parts) (i : Nat) :
    0 ≤ boundAt total parts i := by
  have h := boundAt_mono total parts ht hp (Nat.zero_le i)
  rw [boundAt_zero] at h
  exact h

theorem wrap64_eq (x : Int) (h1 : -2 ^ 63 ≤ x) (h2 : x < 2 ^ 63) : wrap64 x = x := by
  unfold wrap64
  omega

theorem scaled_in_word (total parts x : Int) (i : Nat) (hx0 : 0 ≤ x) (hxt : x ≤ total)
    (hi : (i : Int) ≤ parts) (hb : parts * total < 2 ^ 63) :
    0 ≤ (i : Int) * x ∧ (i : Int) * x < 2 ^ 63 := by
  have h0 : (0 : Int) ≤ (i : Int) := Int.ofNat_nonneg i
  have h1 : (i : Int) * x ≤ parts * total := mul_le_mul hi hxt hx0 (by omega)
  exact ⟨Int.mul_nonneg h0 hx0, by omega⟩

theorem mul64_scaled (total parts x : Int) (i : Nat) (hx0 : 0 ≤ x) (hxt : x ≤ total)
    (hi : (i : Int) ≤ parts) (hb : parts * total < 2 ^ 63) :
    mul64 (i : Int) x = (i : Int) * x := by
  have h := scaled_in_word total parts x i hx0 hxt hi hb
  exact wrap64_eq _ (by omega) h.2

theorem div64_scaled (total parts x : Int) (i : Nat) (hp : 0 < parts) (hx0 : 0 ≤ x)
    (hxt : x ≤ total) (hi : (i : Int) ≤ parts) (hb : parts * total < 2 ^ 63) :
    div64 (mul64 (i : Int) x) parts = boundAt x parts i ∧
      0 ≤ boundAt x parts i ∧ boundAt x parts i < 2 ^ 63 := by
  have h := scaled_in_word total parts x i hx0 hxt hi hb
  have hnn : 0 ≤ boundAt x parts i := boundAt_nonneg x parts hx0 hp i
  have hle : boundAt x parts i ≤ (i : Int) * x := Int.ediv_le_self _ h.1
  refine ⟨?_, hnn, by omega⟩
  rw [mul64_scaled total parts x i hx0 hxt hi hb]
  unfold div64
  rw [tdiv_mul_eq x parts i hx0 (le_of_lt hp)]
  exact wrap64_eq _ (by omega) (by omega)

theorem parts_succ_in_word (total active parts : Int) (h : validInput total active parts)
    (hb : parts * total < 2 ^ 63) : parts + 1 < 2 ^ 63 ∧ total < 2 ^ 63 := by
  obtain ⟨h1, h2, h3, h4⟩ := h
  have ht : total ≤ parts * total := by nlinarith
  refine ⟨?_, by omega⟩
  by_cases hone : parts = 1
  · omega
  · have hm : parts * 2 ≤ parts * total :=
      Int.mul_le_mul_of_nonneg_left (by omega) (by omega)
    omega

theorem makeBounds64_ok (total active parts : Int) (h : validInput total active parts)
    (hb : parts * total < 2 ^ 63) :
    makeBounds64 total parts = .ok ((List.range (parts.toNat + 1)).map (boundAt total parts)) := by
  have hw := parts_succ_in_word total active parts h hb
  obtain ⟨h1, h2, h3, h4⟩ := h
  unfold makeBounds64
  have hadd : add64 parts 1 = parts + 1 := wrap64_eq _ (by omega) hw.1
  rw [hadd, makeSlice_ok _ (by omega)]
  have hlen : (parts + 1).toNat = parts.toNat + 1 := by omega
  simp only [Except.bind, bind, pure, Except.pure, List.length_replicate, hlen]
  congr 1
  apply List.map_congr_left
  intro i hi
  have hi' := List.mem_range.mp hi
  exact (div64_scaled total parts total i h3 (by omega) (le_refl _) (by omega) hb).1

theorem makeSizes64_ok (total active parts : Int) (h : validInput total active parts)
    (hb : parts * total < 2 ^ 63) :
    makeSizes64 active parts = .ok ((List.range parts.toNat).map (sizeAt active parts)) := by
  have hw := parts_succ_in_word total active parts h hb
  obtain ⟨h1, h2, h3, h4⟩ := h
  unfold makeSizes64
  rw [makeSlice_ok _ (le_of_lt h3)]
  simp only [Except.bind, bind, pure, Except.pure, List.length_replicate]
  refine congrArg Except.ok (List.map_congr_left ?_)
  intro i hi
  have hi' := List.mem_range.mp hi
  have hadd : add64 (i : Int) 1 = ((i + 1 : Nat) : Int) := by
    push_cast
    exact wrap64_eq _ (by omega) (by omega)
  have d1 := div64_scaled total parts active i h3 (le_of_lt h1) h2 (by omega) hb
  have d2 := div64_scaled total parts active (i + 1) h3 (le_of_lt h1) h2 (by omega) hb
  rw [hadd, d1.1, d2.1, sizeAt_eq]
  exact wrap64_eq _ (by omega) (by omega)

theorem makePartElems64_ok (total active parts : Int) (h : validInput total active parts)
    (hb : parts * total < 2 ^ 63) :
    makePartElems64 ((List.range (parts.toNat + 1)).map (boundAt total parts))
        ((List.range parts.toNat).map (sizeAt active parts)) parts
      = .ok ((List.range parts.toNat).map (runAt total active parts)) := by
  have hw := parts_succ_in_word total active parts h hb
  have hv := h
  obtain ⟨h1, h2, h3, h4⟩ := h
  unfold makePartElems64
  rw [if_neg (by omega)]
  apply mapM_ok
  intro i hi
  have hi' : i < parts.toNat := List.mem_range.mp hi
  rw [index_ok _ i (by simpa using hi')]
  simp only [Except.bind, bind, List.get_eq_getElem, List.getElem_map, List.getElem_range]
  rw [makeSlice_ok _ (sizeAt_nonneg active parts i (le_of_lt h1) h3)]
  simp only [List.length_replicate]
  unfold runAt
  apply mapM_ok
  intro j hj
  have hj' := List.mem_range.mp hj
  rw [index_ok _ i (by simp; omega)]
  simp only [Except.bind, bind, pure, Except.pure, List.get_eq_getElem, List.getElem_map,
    List.getElem_range]
  have hend := run_end_le_total total active parts i hv hi'
  have hnn := boundAt_nonneg total parts (by omega) h3 i
  congr 1
  exact wrap64_eq _ (by omega) (by omega)

theorem makePartitioner64_closedForm (total active parts : Int)
    (h : validInput total active parts) (hb : parts * total < 2 ^ 63) :
    makePartitioner64 total active parts = .ok (closedForm total active parts) := by
  have hv := h
  obtain ⟨h1, h2, h3, h4⟩ := h
  unfold makePartitioner64
  rw [if_neg (by omega), if_neg (by omega), if_neg (by omega), if_neg (by omega),
    if_neg (by omega)]
  rw [makeBounds64_ok total active parts hv hb, makeSizes64_ok total active parts hv hb]
  simp only [Except.bind, bind]
  rw [makePartElems64_ok total active parts hv hb]
  rfl

/-- At `parts * total = 2^63` the product `parts * total` wraps: the last bound
of `(2^62, _, 2)` is `-2^62`, not `total`. -/
theorem makeBounds64_wraps_at_bound :
    makeBounds64 (2 ^ 62) 2 = .ok [0, 2 ^ 61, -2 ^ 62] := by
  rfl

theorem makePartitioner64_invalid (total active parts : Int)
    (h : total ≤ 0 ∨ active ≤ 0 ∨ parts ≤ 0 ∨ active > total ∨ parts > total) :
    ∃ msg, makePartitioner64 total active parts = .error (.invalidArgument msg) := by
  unfold makePartitioner64
  by_cases h1 : total ≤ 0
  · exact ⟨_, if_pos h1⟩
  · rw [if_neg h1]
    by_cases h2 : active ≤ 0
    · exact ⟨_, if_pos h2⟩
    · rw [if_neg h2]
      by_cases h3 : parts ≤ 0
      · exact ⟨_, if_pos h3⟩
      · rw [if_neg h3]
        by_cases h4 : active > total
        · exact ⟨_, if_pos h4⟩
        · rw [if_neg h4]
          by_cases h5 : parts > total
          · exact ⟨_, if_pos h5⟩
          · omega

theorem makePartitioner64_valid_eq (total active parts : Int)
    (h : validInput total active parts) :
    makePartitioner64 total active parts =
      (do
        let bounds ← makeBounds64 total parts
        let sizes ← makeSizes64 active parts
        let partElems ← makePartElems64 bounds sizes parts
        pure
          { total := total, active := active, parts := parts,
            partBounds := bounds, partElems := partElems,
            partElemsMap := makePartElemsMap partElems,
            totalElems := makeTotalElems partElems }) := by
  obtain ⟨h1, h2, h3, h4⟩ := h
  unfold makePartitioner64
  rw [if_neg (by omega), if_neg (by omega), if_neg (by omega), if_neg (by omega),
    if_neg (by omega)]

theorem makePartitioner64_ok_inv (total active parts : Int) (p : partitioner)
    (hp : makePartitioner64 total active parts = .ok p) :
    validInput total active parts ∧
    ∃ bounds sizes partElems, makeBounds64 total parts = .ok bounds ∧
      makeSizes64 active parts = .ok sizes ∧
      makePartElems64 bounds sizes parts = .ok partElems ∧
      p = { total := total, active := active, parts := parts,
            partBounds := bounds, partElems := partElems,
            partElemsMap := makePartElemsMap partElems,
            totalElems := makeTotalElems partElems } := by
  have hvalid : validInput total active parts := by
    by_contra hn
    have hinv : total ≤ 0 ∨ active ≤ 0 ∨ parts ≤ 0 ∨ active > total ∨ parts > total := by
      unfold validInput at hn
      omega
    obtain ⟨msg, hmsg⟩ := makePartitioner64_invalid total active parts hinv
    rw [hmsg] at hp
    cases hp
  refine ⟨hvalid, ?_⟩
  rw [makePartitioner64_valid_eq total active parts hvalid] at hp
  cases hb : makeBounds64 total parts with
  | error f =>
    rw [hb] at hp
    cases hp
  | ok bounds =>
    cases hs : makeSizes64 active parts with
    | error f =>
      rw [hb, hs] at hp
      cases hp
    | ok sizes =>
      cases he : makePartElems64 bounds sizes parts with
      | error f =>
        rw [hb, hs] at hp
        simp only [bind, Except.bind] at hp
        rw [he] at hp
        cases hp
      | ok partElems =>
        rw [hb, hs] at hp
        simp only [bind, Except.bind] at hp
        rw [he] at hp
        simp only [pure, Except.pure] at hp
        exact ⟨bounds, sizes, partElems, rfl, rfl, he, (Except.ok.inj hp).symm⟩

theorem makeSlice_ok_inv (n : Int) (l : List Int) (h : makeSlice n = .ok l) :
    0 ≤ n ∧ l.length = n.toNat := by
  unfold makeSlice at h
  by_cases hn : n < 0
  · rw [if_pos hn] at h
    cases h
  · rw [if_neg hn] at h
    cases h
    exact ⟨by omega, List.length_replicate _ _⟩

theorem makeBounds64_length (total parts : Int) (bounds : List Int) (hp : 0 < parts)
    (hw : parts < 2 ^ 63) (h : makeBounds64 total parts = .ok bounds) :
    bounds.length = parts.toNat + 1 := by
  unfold makeBounds64 at h
  cases hs : makeSlice (add64 parts 1) with
  | error f' =>
    rw [hs] at h
    cases h
  | ok l =>
    rw [hs] at h
    have hl := makeSlice_ok_inv _ _ hs
    have hb : bounds = (List.range l.length).map
        fun (i : Nat) => div64 (mul64 (i : Int) total) parts := (Except.ok.inj h).symm
    rw [hb, List.length_map, List.length_range, hl.2]
    have h0 := hl.1
    unfold add64 wrap64 at h0 ⊢
    omega

theorem makePartitioner64_bounds_length (total active parts : Int) (p : partitioner)
    (hw : parts < 2 ^ 63) (hp : makePartitioner64 total active parts = .ok p) :
    p.partBounds.length = p.parts.toNat + 1 := by
  obtain ⟨hv, bounds, sizes, partElems, hb, _, _, rfl⟩ :=
    makePartitioner64_ok_inv total active parts p hp
  exact makeBounds64_length total parts bounds hv.2.2.1 hw hb

/-! ## The panic on a negative size -/

theorem mapM_error_second {α β : Type} (f : α → Except Failure β) (x y : α) (rest : List α)
    (b : β) (e : Failure) (hx : f x = .ok b) (hy : f y = .error e) :
    (x :: y :: rest).mapM f = .error e := by
  rw [List.mapM_cons, hx, List.mapM_cons, hy]
  rfl

theorem partRun64_ok (bounds sizes : List Int) (i : Nat) (n b : Int)
    (hn : index sizes i = .ok n) (h0 : 0 ≤ n) (hb : index bounds i = .ok b) :
    (do
      let n ← index sizes i
      let partAct ← makeSlice n
      (List.range partAct.length).mapM fun (j : Nat) => do
        let b ← index bounds i
        pure (add64 b (j : Int))) =
      (.ok ((List.range n.toNat).map fun (j : Nat) => add64 b (j : Int)) :
        Except Failure (List Int)) := by
  rw [hn]
  simp only [bind, Except.bind]
  rw [makeSlice_ok n h0]
  simp only [List.length_replicate]
  apply mapM_ok
  intro j _
  rw [hb]
  rfl

theorem partRun64_panic (bounds sizes : List Int) (i : Nat) (n : Int)
    (hn : index sizes i = .ok n) (hneg : n < 0) :
    (do
      let n ← index sizes i
      let partAct ← makeSlice n
      (List.range partAct.length).mapM fun (j : Nat) => do
        let b ← index bounds i
        pure (add64 b (j : Int))) =
      (.error (.runtimePanic "makeslice: len out of range") : Except Failure (List Int)) := by
  rw [hn]
  simp only [bind, Except.bind]
  unfold makeSlice
  rw [if_pos hneg]

theorem makePartitioner64_error_of_partElems (total active parts : Int)
    (hv : validInput total active parts) (bounds sizes : List Int) (f : Failure)
    (hb : makeBounds64 total parts = .ok bounds) (hs : makeSizes64 active parts = .ok sizes)
    (he : makePartElems64 bounds sizes parts = .error f) :
    makePartitioner64 total active parts = .error f := by
  rw [makePartitioner64_valid_eq total active parts hv, hb, hs]
  simp only [bind, Except.bind]
  rw [he]

theorem makePartElems64_panics_on_negative_size :
    makePartElems64
      [0, 1537228672809129301, -3074457345618258602, -1537228672809129301]
      [1537228672809129301, -4611686018427387903, 1537228672809129301] 3 =
      .error (.runtimePanic "makeslice: len out of range") := by
  have h0 := partRun64_ok
    [(0 : Int), 1537228672809129301, -3074457345618258602, -1537228672809129301]
    [(1537228672809129301 : Int), -4611686018427387903, 1537228672809129301]
    0 1537228672809129301 0 (by rfl) (by decide) (by rfl)
  have h1 := partRun64_panic
    [(0 : Int), 1537228672809129301, -3074457345618258602, -1537228672809129301]
    [(1537228672809129301 : Int), -4611686018427387903, 1537228672809129301]
    1 (-4611686018427387903) (by rfl) (by decide)
  unfold makePartElems64
  rw [if_neg (by decide)]
  have hr : List.range (3 : Int).toNat = [0, 1, 2] := by rfl
  rw [hr]
  exact mapM_error_second _ 0 1 [2] _ _ h0 h1

/-- On the valid input `(2^62, 2^62, 3)` the product `2 * active` wraps, the
length computed for partition 1 is negative, and `make` panics. -/
theorem makePartitioner64_panics_on_negative_size :
    makePartitioner64 (2 ^ 62) (2 ^ 62) 3 =
      .error (.runtimePanic "makeslice: len out of range") :=
  makePartitioner64_error_of_partElems (2 ^ 62) (2 ^ 62) 3 (by decide)
    [0, 1537228672809129301, -3074457345618258602, -1537228672809129301]
    [1537228672809129301, -4611686018427387903, 1537228672809129301] _
    (by rfl) (by rfl) makePartElems64_panics_on_negative_size

/-! ## The 64-bit word: quotients that stay ordered rule out a wrap -/

theorem index_ok_inv {α : Type} (xs : List α) (i : Nat) (x : α) (h : index xs i = .ok x) :
    i < xs.length := by
  unfold index at h
  by_contra hlt
  rw [List.getElem?_eq_none (by omega)] at h
  cases h

theorem rangeClauses_panic (p : partitioner) (idx : Int) (n i : Nat) (buf : String)
    (hn : n ≠ 0) (hlen : p.partBounds.length ≤ i + n) :
    ∃ f, rangeClauses p idx n i buf = .error f := by
  induction n generalizing i buf with
  | zero => exact absurd rfl hn
  | succ n ih =>
    unfold rangeClauses
    cases hlo : index p.partBounds i with
    | error f =>
      cases hhi : index p.partBounds (i + 1) with
      | error f' => exact ⟨_, rfl⟩
      | ok hi => exact ⟨_, rfl⟩
    | ok lo =>
      cases hhi : index p.partBounds (i + 1) with
      | error f => exact ⟨_, rfl⟩
      | ok hi =>
        have h1 := index_ok_inv _ _ _ hhi
        simp only
        exact ih (i + 1) _ (by omega) (by omega)

theorem rangeStatement_wf (p : partitioner) (obj name col : String) (idx : Int)
    (h : p.parts.toNat = 0 ∨ p.parts.toNat < p.partBounds.length) :
    rangeStatement p obj name col idx =
      .ok ("ALTER " ++ obj ++ " " ++ name ++ " PARTITION BY RANGE (" ++ col ++ ") (\n" ++
        String.join ((List.range p.parts.toNat).map (rangeClauseText p idx)) ++ ")\n") := by
  unfold rangeStatement
  rw [rangeClauses_eq p idx p.parts.toNat 0 _ (by omega), List.range_eq_range']

theorem rangeStatement_panic (p : partitioner) (obj name col : String) (idx : Int)
    (h : ¬ (p.parts.toNat = 0 ∨ p.parts.toNat < p.partBounds.length)) :
    ∃ f, rangeStatement p obj name col idx = .error f := by
  unfold rangeStatement
  obtain ⟨f, hf⟩ := rangeClauses_panic p idx p.parts.toNat 0
    ("ALTER " ++ obj ++ " " ++ name ++ " PARTITION BY RANGE (" ++ col ++ ") (\n")
    (by omega) (by omega)
  rw [hf]
  exact ⟨f, rfl⟩

/-- C12: for every partitioner `p`, object kind, name, column and
disambiguator, the first statement `partitionObject` executes is exactly
`ALTER <obj> <name> PARTITION BY RANGE (<col>) (` and a newline, then for
`i = 0 .. parts-1` in order the clause
`  PARTITION p<idx>_<i> VALUES FROM (<bounds[i]>) to (<bounds[i+1]>)` with a `,`
after every clause but the last and a newline after each, then `)` and a
newline.  This holds of every `p` whose bounds hold the boundary points that the
loop reads, as those of every partitioner returned by `makePartitioner` do; on
any other `p` the loop panics and no statement at all is executed.  For the
partitioner of `(20, 10, 3)`, table `warehouse`, column `w_id` and
disambiguator 0 the clauses are `p0_0 (0)-(6)`, `p0_1 (6)-(13)`,
`p0_2 (13)-(20)`. -/
theorem partitionObject_first_statement :
    (∀ (p : partitioner) (db : DB) (tr : List Call)
      (zones : List String) (obj name col table : String) (idx : Int),
      (p.parts.toNat = 0 ∨ p.parts.toNat < p.partBounds.length) →
      ∃ r rest, partitionObject db tr p zones obj name col table idx =
        (r, tr ++ Call.exec
          ("ALTER " ++ obj ++ " " ++ name ++ " PARTITION BY RANGE (" ++ col ++ ") (\n" ++
            String.join ((List.range p.parts.toNat).map fun (i : Nat) =>
              "  PARTITION p" ++ toString idx ++ "_" ++ toString i ++ " VALUES FROM (" ++
              toString (p.partBounds.getD i 0) ++ ") to (" ++
              toString (p.partBounds.getD (i + 1) 0) ++ ")" ++
              (if i + 1 < p.parts.toNat then "," else "") ++ "\n") ++
            ")\n") :: rest)) ∧
    (∀ (p : partitioner) (db : DB) (tr : List Call)
      (zones : List String) (obj name col table : String) (idx : Int),
      ¬ (p.parts.toNat = 0 ∨ p.parts.toNat < p.partBounds.length) →
      ∃ f, partitionObject db tr p zones obj name col table idx = (.error f, tr)) ∧
    (∀ (total active parts : Int) (p : partitioner), parts < 2 ^ 63 →
      makePartitioner64 total active parts = .ok p →
      p.parts.toNat < p.partBounds.length) ∧
    (∀ (total active parts : Int) (p : partitioner),
      makePartitioner total active parts = .ok p →
      p.parts.toNat < p.partBounds.length) ∧
    (∀ (p : partitioner) (db : DB) (tr : List Call) (zones : List String),
      makePartitioner64 20 10 3 = .ok p →
      ∃ r rest, partitionWarehouse db tr p zones =
        (r, tr ++ Call.exec
          "ALTER TABLE warehouse PARTITION BY RANGE (w_id) (\n  PARTITION p0_0 VALUES FROM (0) to (6),\n  PARTITION p0_1 VALUES FROM (6) to (13),\n  PARTITION p0_2 VALUES FROM (13) to (20)\n)\n"
          :: rest)) := by
  refine ⟨?_, ?_, ?_, ?_, ?_⟩
  · intro p db tr zones obj name col table idx hwf
    exact partitionObject_trace db tr p zones obj name col table idx _
      (rangeStatement_wf p obj name col idx hwf)
  · intro p db tr zones obj name col table idx hwf
    obtain ⟨f, hf⟩ := rangeStatement_panic p obj name col idx hwf
    exact ⟨f, partitionObject_panic db tr p zones obj name col table idx f hf⟩
  · intro total active parts p hw hp
    have := makePartitioner64_bounds_length total active parts p hw hp
    omega
  · intro total active parts p hp
    have := makePartitioner_bounds_length total active parts p hp
    omega
  · intro p db tr zones hp
    have h0 : makePartitioner64 20 10 3 = .ok (closedForm 20 10 3) :=
      makePartitioner64_closedForm 20 10 3 (by decide) (by decide)
    rw [h0] at hp
    cases hp
    exact partitionObject_trace db tr (closedForm 20 10 3) zones "TABLE" "warehouse" "w_id"
      "warehouse" 0 _ (by rfl)

theorem partitionObject_first_statement_witness :
    (∃ r rest, partitionObject dbAlwaysOk []
        { total := 4, active := 2, parts := 2, partBounds := [0, 2, 4],
          partElems := [[0], [2]], partElemsMap := [(0, 0), (2, 1)], totalElems := [0, 2] }
        [] "TABLE" "district" "d_w_id" "district" 0 =
      (r, [] ++ Call.exec
        "ALTER TABLE district PARTITION BY RANGE (d_w_id) (\n  PARTITION p0_0 VALUES FROM (0) to (2),\n  PARTITION p0_1 VALUES FROM (2) to (4)\n)\n"
        :: rest)) ∧
    (∃ f, partitionObject dbAlwaysOk []
        { total := 4, active := 2, parts := 2, partBounds := [0, 2],
          partElems := [[0], [2]], partElemsMap := [(0, 0), (2, 1)], totalElems := [0, 2] }
        [] "TABLE" "district" "d_w_id" "district" 0 = (.error f, [])) ∧
    (∃ p, makePartitioner64 20 10 3 = .ok p ∧ p.parts.toNat < p.partBounds.length ∧
      ∃ r rest, partitionWarehouse dbAlwaysOk [] p [] =
        (r, [] ++ Call.exec
          "ALTER TABLE warehouse PARTITION BY RANGE (w_id) (\n  PARTITION p0_0 VALUES FROM (0) to (6),\n  PARTITION p0_1 VALUES FROM (6) to (13),\n  PARTITION p0_2 VALUES FROM (13) to (20)\n)\n"
          :: rest)) :=
  ⟨partitionObject_first_statement.1
      { total := 4, active := 2, parts := 2, partBounds := [0, 2, 4],
        partElems := [[0], [2]], partElemsMap := [(0, 0), (2, 1)], totalElems := [0, 2] }
      dbAlwaysOk [] [] "TABLE" "district" "d_w_id" "district" 0 (by decide),
    partitionObject_first_statement.2.1
      { total := 4, active := 2, parts := 2, partBounds := [0, 2],
        partElems := [[0], [2]], partElemsMap := [(0, 0), (2, 1)], totalElems := [0, 2] }
      dbAlwaysOk [] [] "TABLE" "district" "d_w_id" "district" 0 (by decide),
    ⟨_, rfl, partitionObject_first_statement.2.2.1 20 10 3 _ (by decide) rfl,
      partitionObject_first_statement.2.2.2.2 _ dbAlwaysOk [] [] rfl⟩⟩

/-! ## The claims on the 64-bit program: runs, ranges and order -/

end Tpcc
